import Mathlib

/-!
Verification of the rlox tree-walking interpreter (scanner, parser, evaluator)
against its natural-language specification.

The Rust sources are embedded shallowly:

* `f64` numbers are modelled as `Rat`.  Every numeric value appearing in the
  claims is a small integer, on which `f64` arithmetic is exact, so the model
  agrees with the source wherever a claim exercises it.  (Only the textual
  formatting of non-integral numbers is abstracted.)
* `usize` is modelled as `Nat`; where the source can underflow a `usize`
  subtraction (`Scanner::add_token`) the wrapping semantics of a release
  build is made explicit with `% 2 ^ 64`.
* `&mut Environment` state is threaded explicitly: every outcome, including
  a runtime error, carries the state as mutated so far, exactly as the
  borrowed environment survives an `Err` return in Rust.
* Rust panics (`expect`, unreachable arms, the interpreter's internal-error
  abort) are a distinguished outcome `panicked`, `process::exit` is
  `exited`, and fuel exhaustion of the model is `diverge`.
* stdout and stderr are modelled as lists of written strings; `clock`,
  `rand` and `randint` draw their unspecified numeric results from an
  explicit oracle list carried in the state.
* `Expression::Get`/`Set` and instance field maps (`Rc<RefCell<Instance>>`)
  are not modelled: no claim mentions property access, and the parser in
  `src/parser.rs` cannot produce those nodes.
-/

namespace Rlox

/-! ## Tokens (src/scanner.rs) -/

/-- Token kinds, mirroring `enum TokenType` in src/scanner.rs.  `Number`
carries the parsed numeric value (modelled as `Rat`). -/
inductive TokenType
  | leftParen | rightParen | leftBrace | rightBrace
  | comma | dot | minus | plus | semicolon | slash | star
  | bang | bangEqual | equal | equalEqual
  | greater | greaterEqual | less | lessEqual
  | identifier (name : String)
  | string (contents : String)
  | number (value : Rat)
  | and_ | break_ | class_ | continue_ | else_ | fun_ | for_ | false_
  | if_ | nil | or_ | print | return_ | super_ | this_ | true_ | var_ | while_
  | eof
  deriving DecidableEq

/-- A scanned token: kind, original lexeme, 1-based line and column
(`struct Token` in src/scanner.rs). -/
structure Token where
  type : TokenType
  lexeme : String
  line : Nat
  col : Nat
  deriving DecidableEq

/-- The keyword table `KEYWORDS` of src/scanner.rs, in source order. -/
def KEYWORDS : List (String × TokenType) :=
  [ ("and", .and_), ("class", .class_), ("else", .else_), ("false", .false_),
    ("for", .for_), ("fun", .fun_), ("if", .if_), ("nil", .nil),
    ("or", .or_), ("print", .print), ("return", .return_), ("super", .super_),
    ("this", .this_), ("true", .true_), ("var", .var_), ("while", .while_),
    ("break", .break_), ("continue", .continue_) ]

/-- Keyword lookup (`KEYWORDS.get` in `Scanner::identifier`). -/
def keywordLookup (s : String) : Option TokenType :=
  (KEYWORDS.find? (fun p => p.1 = s)).map Prod.snd

/-! ## Runtime values and syntax trees

`Object`, `Expression` (src/expression.rs) and `Stmt` (src/parser.rs) are
mutually recursive through `UserDefinedFunction` (src/functions.rs), whose
callable value stores the function body.  The `Stmt` type is the union of
the constructors built by the parser and those matched by the interpreter.
-/

mutual

/-- Runtime value `Object` of src/expression.rs. -/
inductive Obj
  | str (s : String)
  | num (x : Rat)
  | bool (b : Bool)
  | callable (c : CallableV)
  | nil

/-- The callables of src/functions.rs behind `Rc<dyn Callable>`:
built-ins, `UserDefinedFunction { name, body, parameters }`,
`UserDefinedStruct { name }` and a (field-free, see the module comment)
class instance. -/
inductive CallableV
  | builtin (b : BuiltinName)
  | userFn (name : String) (body : List Stmt) (params : List String)
  | userStruct (name : String)
  | instanceV (base : String)

/-- The ten pre-bound built-in functions of src/functions.rs. -/
inductive BuiltinName
  | clock | printB | help | exitB | quit | typeB | dir | rand | randint | round

/-- `Expression` of src/expression.rs (without `Get`/`Set`, see module
comment).  Operators are carried as whole tokens, as in the source. -/
inductive Expr
  | literal (o : Obj)
  | unary (op : Token) (right : Expr)
  | binary (left : Expr) (op : Token) (right : Expr)
  | grouping (inner : Expr)
  | variable_ (name : String)
  | assign (name : String) (value : Expr)
  | logical (left : Expr) (op : Token) (right : Expr)
  | call (callee : Expr) (arguments : List Expr)

/-- `Stmt`: union of the constructors produced by src/parser.rs
(`Var`, `Print`, `Expr`, `Block`, `If`, `While`, `Break`, `Continue`,
`Function`) and the additional arms executed by src/interpreter.rs
(`Return`, `Class`, `Null`). -/
inductive Stmt
  | var_ (name : String) (initializer : Option Expr)
  | print (e : Expr)
  | expr (e : Expr)
  | block (stmts : List Stmt)
  | if_ (condition : Expr) (thenStmt : Stmt) (elseStmt : Option Stmt)
  | while_ (condition : Expr) (body : Stmt) (increment : Option Expr)
  | break_
  | continue_
  | function_ (name : String) (body : List Stmt) (parameters : List String)
  | return_ (e : Option Expr)
  | class_ (name : String)
  | null

end

/-- Control-flow signals (`enum Signal` in src/interpreter.rs).  Note that
`Return` carries an *unevaluated* optional expression, exactly as in the
source. -/
inductive Signal
  | cont
  | brk
  | ret (e : Option Expr)

/-- Truthiness (`impl From<Object> for bool` in src/expression.rs):
everything is truthy except `Bool(false)` and `Nil`. -/
def truthy : Obj → Bool
  | .bool false => false
  | .nil => false
  | _ => true

/-- Structural equality of objects (`impl PartialEq for Object`):
same-variant comparison on payloads, every cross-variant pair and every
pair of callables compares unequal. -/
def objEq : Obj → Obj → Bool
  | .str s1, .str s2 => s1 = s2
  | .bool b1, .bool b2 => b1 = b2
  | .num x1, .num x2 => x1 = x2
  | .nil, .nil => true
  | _, _ => false

/-- Rust's `f64::round` (half away from zero), on the rational model. -/
def ratRound (q : Rat) : Int :=
  if 0 ≤ q then ⌊q + 1 / 2⌋ else -⌊-q + 1 / 2⌋

/-- Display of a number (`{x}` on `f64`).  Integer values print exactly as
in Rust; the shortest-round-trip formatting of non-integral `f64` values is
abstracted by the raw rational rendering. -/
def numToString (x : Rat) : String :=
  if x.den = 1 then toString x.num else toString x

def builtinName : BuiltinName → String
  | .clock => "clock" | .printB => "print" | .help => "help" | .exitB => "exit"
  | .quit => "quit" | .typeB => "type" | .dir => "dir" | .rand => "rand"
  | .randint => "randint" | .round => "round"

def builtinArity : BuiltinName → Nat
  | .clock => 0 | .printB => 1 | .help => 1 | .exitB => 1 | .quit => 0
  | .typeB => 1 | .dir => 0 | .rand => 0 | .randint => 2 | .round => 2

def builtinDoc : BuiltinName → String
  | .clock => "Returns the amount of time elapsed since the Unix epoch."
  | .printB => "Prints its argument to the standard output, with a newline."
  | .help => "Prints the documentation of the given object."
  | .exitB => "Terminates the current process with the specified exit code."
  | .quit => "Terminates the current process with an exit code of 0."
  | .typeB => "Prints the type of the given object."
  | .dir => "Prints all the names in the current scope."
  | .rand => "Returns a number between 0 and 1."
  | .randint => "Returns a integer between the two provided arguments."
  | .round => "Rounds a number to a given precision in decimal digits."

/-- `CallableType` display tag (`fn` / `class` / `instance`). -/
def callableTypeStr : CallableV → String
  | .builtin _ => "fn"
  | .userFn _ _ _ => "fn"
  | .userStruct _ => "class"
  | .instanceV _ => "instance"

def callableName : CallableV → String
  | .builtin b => builtinName b
  | .userFn n _ _ => n
  | .userStruct n => n
  | .instanceV base => base

def callableDoc : CallableV → String
  | .builtin b => builtinDoc b
  | .userFn _ _ _ => "No documentation available."
  | .userStruct _ => "No documentation available."
  | .instanceV _ => "A class instance."

/-- Display of a callable (`impl Display for dyn Callable`):
`<type name>`. -/
def dispCallable (c : CallableV) : String :=
  "<" ++ callableTypeStr c ++ " " ++ callableName c ++ ">"

/-- Arity of a callable. -/
def arityOf : CallableV → Nat
  | .builtin b => builtinArity b
  | .userFn _ _ params => params.length
  | .userStruct _ => 0
  | .instanceV _ => 0

/-- `impl Display for Object` of src/expression.rs. -/
def dispObj : Obj → String
  | .str s => s
  | .num x => numToString x
  | .bool b => if b then "true" else "false"
  | .nil => "nil"
  | .callable c => dispCallable c

/-- The short type label written by the `type` built-in
(`Object::type` in src/expression.rs). -/
def typeString : Obj → String
  | .str _ => "<string> object"
  | .num _ => "<f64> object"
  | .bool _ => "<bool> object"
  | .callable c => "<" ++ callableTypeStr c ++ "> object"
  | .nil => "<nil> object"

/-- `impl Display for Expression` of src/expression.rs.  The `Logical` and
`Call` arms of the source contain `todo!()` and abort; those cases are
`none`. -/
def exprToString : Expr → Option String
  | .literal o => some (dispObj o)
  | .unary op right => (exprToString right).map (fun r =>
      "(" ++ op.lexeme ++ " " ++ r ++ ")")
  | .binary left op right =>
      match exprToString left, exprToString right with
      | some l, some r => some ("(" ++ op.lexeme ++ " " ++ l ++ " " ++ r ++ ")")
      | _, _ => none
  | .grouping inner => (exprToString inner).map (fun s => "(group " ++ s ++ ")")
  | .variable_ name => some name
  | .assign _ value => exprToString value
  | .logical _ _ _ => none
  | .call _ _ => none

/-! ## Environment (src/interpreter.rs)

A frame is one `HashMap<String, Option<Object>>`, modelled as an
association list; the environment is the stack of frames with the
*innermost* frame first (Rust pushes onto the end of a `Vec` and iterates
with `.rev()`, so head-first order here matches its lookup order). -/

def Frame := List (String × Option Obj)

def Env := List Frame

/-- `HashMap::insert`: replace the value of an existing key, otherwise add
the binding. -/
def frameInsert (name : String) (v : Option Obj) : Frame → Frame
  | [] => [(name, v)]
  | (k, w) :: rest =>
      if k = name then (k, v) :: rest else (k, w) :: frameInsert name v rest

/-- `Environment::define`: insert into the innermost frame. -/
def envDefine (name : String) (v : Option Obj) : Env → Env
  | [] => []          -- the source would abort (`expect`); the stack is never empty
  | top :: rest => frameInsert name v top :: rest

/-- Lookup in one frame. -/
def frameGet (name : String) : Frame → Option (Option Obj)
  | [] => none
  | (k, w) :: rest => if k = name then some w else frameGet name rest

/-- `Environment::get`: innermost frame containing the name, if any. -/
def envGet (name : String) : Env → Option (Option Obj)
  | [] => none
  | top :: rest =>
      match frameGet name top with
      | some w => some w
      | none => envGet name rest

/-- `Environment::update`: set the slot in the innermost frame that already
contains the name; `none` (and no change anywhere) if no frame does. -/
def envUpdate (name : String) (v : Obj) : Env → Option Env
  | [] => none
  | top :: rest =>
      match frameGet name top with
      | some _ => some (frameInsert name (some v) top :: rest)
      | none => (envUpdate name v rest).map (fun r => top :: r)

/-- `Environment::enter_block`: push a fresh frame. -/
def enterBlock (env : Env) : Env := ([] : Frame) :: env

/-- `Environment::exit_block`: pop the innermost frame (`Vec::pop`). -/
def exitBlock (env : Env) : Env := env.tail

/-- The global frame created by `Environment::new`, with the ten built-ins
in insertion order. -/
def globalFrame : Frame :=
  [ ("clock", some (.callable (.builtin .clock))),
    ("print", some (.callable (.builtin .printB))),
    ("help", some (.callable (.builtin .help))),
    ("exit", some (.callable (.builtin .exitB))),
    ("quit", some (.callable (.builtin .quit))),
    ("type", some (.callable (.builtin .typeB))),
    ("dir", some (.callable (.builtin .dir))),
    ("rand", some (.callable (.builtin .rand))),
    ("randint", some (.callable (.builtin .randint))),
    ("round", some (.callable (.builtin .round))) ]

def initialEnv : Env := [globalFrame]

/-! ## Interpreter state and outcomes -/

/-- The mutable world threaded through evaluation: the environment, the
lines written to stdout and stderr, and the oracle supplying the
otherwise-unspecified results of `clock`, `rand` and `randint`. -/
structure St where
  env : Env
  out : List String
  errs : List String
  oracle : List Rat

/-- Result of one evaluation step.  `ok` and `err` carry the state as
mutated so far (a Rust `Err` return leaves the borrowed environment in its
current state); `panicked` is a Rust panic, `exited` a `process::exit`,
and `diverge` means the model ran out of fuel (the source loops forever or
recurses unboundedly). -/
inductive Outcome (α : Type)
  | ok (a : α) (s : St)
  | err (msg : String) (s : St)
  | panicked
  | exited (code : Int)
  | diverge

/-- Pop the next oracle value (result of `clock`/`rand`/`randint`). -/
def nextOracle (s : St) : Rat × St :=
  match s.oracle with
  | [] => (0, s)
  | x :: rest => (x, { s with oracle := rest })

/-- The `'\0'`-or-`'s'` plural marker used by arity-mismatch messages. -/
def pluralChar (arity : Nat) : String :=
  if 1 < arity then "s" else String.mk [Char.ofNat 0]

/-- Calls to the built-in functions of src/functions.rs.  `print`, `type`,
`help` and `dir` write to stdout; `exit`/`quit` terminate the process;
`clock`, `rand` and `randint` take their numeric result from the oracle
(their argument validation is modelled faithfully); `round` is computed
on rationals.  An `objects.first()`/`next()` `expect` on a missing
argument is a panic (unreachable: the caller has checked the arity). -/
def callBuiltin (b : BuiltinName) (objects : List Obj) (st : St) : Outcome Obj :=
  match b with
  | .printB =>
      match objects with
      | [] => .panicked
      | v :: _ => .ok .nil { st with out := st.out ++ [dispObj v] }
  | .typeB =>
      match objects with
      | [] => .panicked
      | v :: _ => .ok .nil { st with out := st.out ++ [typeString v] }
  | .help =>
      match objects with
      | [] => .panicked
      | .callable f :: _ =>
          .ok .nil { st with out := st.out ++ [callableName f ++ "\n\t" ++ callableDoc f] }
      | _ :: _ => .ok .nil { st with out := st.out ++ ["No documentation available"] }
  | .exitB =>
      match objects with
      | [] => .panicked
      | .num x :: _ =>
          if x.den = 1 then .exited x.num
          else .err "exit: expected an integer" st
      | _ :: _ => .err "exit: expected an integer" st
  | .quit => .exited 0
  | .clock =>
      let (t, st) := nextOracle st
      .ok (.num t) st
  | .rand =>
      let (x, st) := nextOracle st
      .ok (.num x) st
  | .randint =>
      match objects with
      | .num low :: .num high :: _ =>
          if low.den = 1 ∧ high.den = 1 then
            let (r, st) := nextOracle st
            .ok (.num r) st
          else .err "randint: expected two integers arguments" st
      | _ :: _ :: _ => .err "randint: expected two integers arguments" st
      | _ => .panicked
  | .round =>
      match objects with
      | .num value :: .num precision :: _ =>
          if precision.den = 1 then
            let pow : Rat := (10 : Rat) ^ precision.num.toNat
            .ok (.num ((ratRound (value * pow) : Rat) / pow)) st
          else .err "round: precision must be an integer" st
      | _ :: _ :: _ => .err "round: arguments one number and one integer" st
      | _ => .panicked
  | .dir =>
      match st.env with
      | [] => .panicked
      | top :: _ => .ok .nil { st with out := st.out ++ top.map Prod.fst }

/-! ## The evaluator

`run` is the joint embedding of the mutually recursive evaluation
functions, made a single function over a command sum so that it is
structurally recursive on fuel (and hence computes by `rfl`):

* `.e`           — `Expression::evaluate`          (src/expression.rs)
* `.args`        — its argument-collection loop
* `.s`           — `Interpreter::execute`          (src/interpreter.rs)
* `.blockLoop`   — the `Stmt::Block` statement loop
* `.whileLoop`   — the `Stmt::While` iteration loop
* `.callC`       — `Callable::call` dispatch       (src/functions.rs)
* `.prog`        — `Interpreter::interpret`        (src/interpreter.rs)
-/

/-- Frame setup of `UserDefinedFunction::call`: bind each parameter name
to the corresponding argument value (by position) in the current innermost
frame. -/
def bindParams (params : List String) (objects : List Obj) (s : St) : St :=
  (params.zip objects).foldl
    (fun s pv => { s with env := envDefine pv.1 (some pv.2) s.env }) s

inductive Cmd
  | e (x : Expr)
  | args (pending : List Expr) (acc : List Obj)
  | s (x : Stmt)
  | blockLoop (stmts : List Stmt)
  | whileLoop (condition : Expr) (body : Stmt) (increment : Option Expr)
  | callC (c : CallableV) (objects : List Obj)
  | prog (stmts : List Stmt)

/-- Joint result type of the evaluation functions. -/
inductive RVal
  | obj (o : Obj)
  | objs (l : List Obj)
  | sig (s : Option Signal)

def run (fuel : Nat) (c : Cmd) (st : St) : Outcome RVal :=
  match fuel with
  | 0 => .diverge
  | fuel + 1 =>
    match c with
    -- Expression::evaluate
    | .e (.literal o) => .ok (.obj o) st
    | .e (.unary op right) =>
      match run fuel (.e right) st with
      | .ok (.obj r) st =>
        match op.type with
        | .bang => .ok (.obj (.bool (truthy r))) st
        | .minus =>
          match r with
          | .num x => .ok (.obj (.num (-x))) st
          | _ => .err "unary operator `-` only works with numbers" st
        | _ => .err "invalid token for unary expression" st
      | .ok _ _ => .panicked
      | o => o
    | .e (.binary left op right) =>
      match run fuel (.e left) st with
      | .ok (.obj l) st =>
        match run fuel (.e right) st with
        | .ok (.obj r) st =>
          match op.type with
          | .equalEqual => .ok (.obj (.bool (objEq l r))) st
          | .bangEqual => .ok (.obj (.bool (!objEq l r))) st
          | _ =>
            match l, r with
            | .num x, .num y =>
              match op.type with
              | .plus => .ok (.obj (.num (x + y))) st
              | .minus => .ok (.obj (.num (x - y))) st
              | .slash =>
                  if y = 0 then .err "division by zero" st
                  else .ok (.obj (.num (x / y))) st
              | .star => .ok (.obj (.num (x * y))) st
              | .greater => .ok (.obj (.bool (y < x))) st
              | .greaterEqual => .ok (.obj (.bool (y ≤ x))) st
              | .less => .ok (.obj (.bool (x < y))) st
              | .lessEqual => .ok (.obj (.bool (x ≤ y))) st
              | _ => .err "unsupported operation between numbers" st
            | .str s1, .str s2 =>
              match op.type with
              | .plus => .ok (.obj (.str (s1 ++ s2))) st
              | .greater => .ok (.obj (.bool (s2 < s1))) st
              | .greaterEqual => .ok (.obj (.bool (s2 ≤ s1))) st
              | .less => .ok (.obj (.bool (s1 < s2))) st
              | .lessEqual => .ok (.obj (.bool (s1 ≤ s2))) st
              | _ => .err "unsupported operation between strings" st
            | .str s1, r =>
              match op.type, r with
              | .plus, .nil =>
                  .err "can't evaluate expression: unsupported operation between types" st
              | .plus, r => .ok (.obj (.str (s1 ++ dispObj r))) st
              | _, _ =>
                  .err "can't evaluate expression: unsupported operation between types" st
            | l, .str s2 =>
              match op.type, l with
              | .plus, .nil =>
                  .err "can't evaluate expression: unsupported operation between types" st
              | .plus, l => .ok (.obj (.str (dispObj l ++ s2))) st
              | _, _ =>
                  .err "can't evaluate expression: unsupported operation between types" st
            | _, _ =>
                .err "can't evaluate expression: unsupported operation between types" st
        | .ok _ _ => .panicked
        | o => o
      | .ok _ _ => .panicked
      | o => o
    | .e (.grouping inner) => run fuel (.e inner) st
    | .e (.variable_ name) =>
      match envGet name st.env with
      | none => .err ("name `" ++ name ++ "` is not defined") st
      | some none => .err ("variable `" ++ name ++ "` used uninitialized") st
      | some (some v) => .ok (.obj v) st
    | .e (.assign name value) =>
      match run fuel (.e value) st with
      | .ok (.obj v) st =>
        match envUpdate name v st.env with
        | some env2 => .ok (.obj v) { st with env := env2 }
        | none => .err ("name `" ++ name ++ "` is not defined") st
      | .ok _ _ => .panicked
      | o => o
    | .e (.logical left op right) =>
      match run fuel (.e left) st with
      | .ok (.obj l) st =>
        if op.type = .or_ then
          if truthy l then .ok (.obj (.bool true)) st
          else
            match run fuel (.e right) st with
            | .ok (.obj r) st => .ok (.obj (.bool (truthy r))) st
            | .ok _ _ => .panicked
            | o => o
        else
          if !truthy l then .ok (.obj (.bool false)) st
          else
            match run fuel (.e right) st with
            | .ok (.obj r) st => .ok (.obj (.bool (truthy r))) st
            | .ok _ _ => .panicked
            | o => o
      | .ok _ _ => .panicked
      | o => o
    | .e (.call callee arguments) =>
      match exprToString callee with
      | none => .panicked          -- Display of Logical/Call contains todo!()
      | some name =>
        match run fuel (.e callee) st with
        | .ok (.obj cv) st =>
          match cv with
          | .callable f =>
            let arity := arityOf f
            let numArgs := arguments.length
            if numArgs ≠ arity then
              .err ("`" ++ dispCallable f ++ "`: expected " ++ toString arity
                ++ " argument" ++ pluralChar arity ++ " but got " ++ toString numArgs) st
            else
              match run fuel (.args arguments []) st with
              | .ok (.objs objects) st => run fuel (.callC f objects) st
              | .ok _ _ => .panicked
              | o => o
          | _ => .err (name ++ " is not callable") st
        | .ok _ _ => .panicked
        | o => o
    -- argument collection, left to right, first error aborts
    | .args [] acc => .ok (.objs acc) st
    | .args (a :: rest) acc =>
      match run fuel (.e a) st with
      | .ok (.obj v) st => run fuel (.args rest (acc ++ [v])) st
      | .ok _ _ => .panicked
      | o => o
    -- Callable::call
    | .callC (.builtin b) objects =>
      match callBuiltin b objects st with
      | .ok v st => .ok (.obj v) st
      | .err m st => .err m st
      | .panicked => .panicked
      | .exited c => .exited c
      | .diverge => .diverge
    | .callC (.userFn _ body params) objects =>
      -- UserDefinedFunction::call, src/functions.rs lines 364-384
      match run fuel (.prog body)
          (bindParams params objects { st with env := enterBlock st.env }) with
      | .ok (.sig (some (.ret (some expr)))) st3 =>
        match run fuel (.e expr) st3 with
        | .ok (.obj v) st4 => .ok (.obj v) { st4 with env := exitBlock st4.env }
        | .ok _ _ => .panicked
        | .err m st4 => .err m { st4 with env := exitBlock st4.env }
        | o => o
      | .ok (.sig _) st3 => .ok (.obj .nil) { st3 with env := exitBlock st3.env }
      | .ok _ _ => .panicked
      | .err m st3 => .err m st3      -- `?` propagates without exit_block
      | o => o
    | .callC (.userStruct name) _ =>
      .ok (.obj (.callable (.instanceV name))) st
    | .callC (.instanceV _) _ => .panicked    -- Instance::call is todo!()
    -- Interpreter::execute
    | .s (.var_ name initializer) =>
      match initializer with
      | none => .ok (.sig none) { st with env := envDefine name none st.env }
      | some expr =>
        match run fuel (.e expr) st with
        | .ok (.obj v) st =>
            .ok (.sig none) { st with env := envDefine name (some v) st.env }
        | .ok _ _ => .panicked
        | o => o
    | .s (.function_ name body parameters) =>
      .ok (.sig none)
        { st with env :=
            envDefine name (some (.callable (.userFn name body parameters))) st.env }
    | .s (.block stmts) =>
      run fuel (.blockLoop stmts) { st with env := enterBlock st.env }
    | .s (.expr expression) =>
      match run fuel (.e expression) st with
      | .ok (.obj _) st => .ok (.sig none) st
      | .ok _ _ => .panicked
      | o => o
    | .s (.if_ condition thenStmt elseStmt) =>
      match run fuel (.e condition) st with
      | .ok (.obj v) st =>
        match v with
        | .bool true => run fuel (.s thenStmt) st
        | _ =>
          match elseStmt with
          | some e => run fuel (.s e) st
          | none => .ok (.sig none) st
      | .ok _ _ => .panicked
      | o => o
    | .s (.while_ condition body increment) =>
      run fuel (.whileLoop condition body increment) st
    | .s .break_ => .ok (.sig (some .brk)) st
    | .s .continue_ => .ok (.sig (some .cont)) st
    | .s (.return_ expression) => .ok (.sig (some (.ret expression))) st
    | .s (.class_ name) =>
      .ok (.sig none)
        { st with env := envDefine name (some (.callable (.userStruct name))) st.env }
    | .s .null => .ok (.sig none) st
    | .s (.print _) => .panicked
      -- the interpreter of this snapshot has no arm for the parser's Print statement
    -- the statement loop of Stmt::Block: first signal exits the block;
    -- a runtime error propagates without exit_block, as in the source
    | .blockLoop [] => .ok (.sig none) { st with env := exitBlock st.env }
    | .blockLoop (s0 :: rest) =>
      match run fuel (.s s0) st with
      | .ok (.sig ctl) st =>
        match ctl with
        | some _ => .ok (.sig ctl) { st with env := exitBlock st.env }
        | none => run fuel (.blockLoop rest) st
      | .ok _ _ => .panicked
      | o => o
    -- the iteration loop of Stmt::While
    | .whileLoop condition body increment =>
      match run fuel (.e condition) st with
      | .ok (.obj v) st =>
        if truthy v then
          match run fuel (.s body) st with
          | .ok (.sig none) st => run fuel (.whileLoop condition body increment) st
          | .ok (.sig (some .brk)) st => .ok (.sig none) st
          | .ok (.sig (some .cont)) st =>
            (match increment with
            | some inc =>
              match run fuel (.e inc) st with
              | .ok (.obj _) st => run fuel (.whileLoop condition body increment) st
              | .ok _ _ => .panicked
              | o => o
            | none => run fuel (.whileLoop condition body increment) st)
          | .ok (.sig (some sig)) st => .ok (.sig (some sig)) st
          | .ok _ _ => .panicked
          | o => o
        else .ok (.sig none) st
      | .ok _ _ => .panicked
      | o => o
    -- Interpreter::interpret: a statement error is printed to stderr and
    -- the loop continues; a Return signal is returned; any other signal is
    -- an internal-error panic
    | .prog [] => .ok (.sig none) st
    | .prog (s0 :: rest) =>
      match run fuel (.s s0) st with
      | .err m st => run fuel (.prog rest) { st with errs := st.errs ++ ["runtime error: " ++ m] }
      | .ok (.sig (some (.ret e))) st => .ok (.sig (some (.ret e))) st
      | .ok (.sig (some _)) _ => .panicked
      | .ok (.sig none) st => run fuel (.prog rest) st
      | .ok _ _ => .panicked
      | .panicked => .panicked
      | .exited c => .exited c
      | .diverge => .diverge

/-- Initial state: fresh global environment, empty streams. -/
def initSt : St := { env := initialEnv, out := [], errs := [], oracle := [] }

/-! ## Parser (src/parser.rs)

The parser state is the token vector, the cursor, and the loop-depth
counter `enclosing_loops`.  The expression grammar and the statement
grammar are each embedded as one function over a command sum, structurally
recursive on fuel; every command constructor corresponds to one parser
method of the source (`*Loop` constructors are the `while` loops inside
those methods, carrying their accumulator).

On a parse error the source runs `synchronize` (which only moves the
cursor) and propagates the error; since `Parser::parse` aborts on the
first error via `?`, the synchronization has no effect on the parse result
and is not modelled.
-/

structure PSt where
  tokens : List Token
  current : Nat
  enclosingLoops : Nat

/-- `ParseError { token, message }` of src/errors.rs. -/
structure ParseError where
  token : Token
  message : String
  deriving DecidableEq

/-- Stand-in for an out-of-bounds token access, which cannot occur on
scanner output (every token list ends with `Eof` and `advance` stops
there). -/
def dummyToken : Token := ⟨.eof, "", 0, 0⟩

/-- `Parser::peek`: the token under the cursor. -/
def peekTok (p : PSt) : Token := p.tokens.getD p.current dummyToken

/-- `Parser::peek_type`. -/
def peekType (p : PSt) : TokenType := (peekTok p).type

/-- `Parser::advance`: move past the current token unless at `Eof`. -/
def advanceP (p : PSt) : PSt :=
  if peekType p ≠ .eof then { p with current := p.current + 1 } else p

/-- `Parser::previous` (its `unwrap` cannot fail after an `advance`). -/
def previousTok (p : PSt) : Token := p.tokens.getD (p.current - 1) dummyToken

/-- `Parser::consume`: expect a specific token type, advance past it and
(as in the source) return the token now under the cursor. -/
def consume (tt : TokenType) (message : String) (p : PSt) :
    Except ParseError (Token × PSt) :=
  if peekType p = tt then
    let p := advanceP p
    .ok (peekTok p, p)
  else .error ⟨peekTok p, message⟩

/-- `Parser::consume_identifier`. -/
def consumeIdentifier (message : String) (p : PSt) :
    Except ParseError (String × PSt) :=
  match peekType p with
  | .identifier name => .ok (name, advanceP p)
  | _ => .error ⟨peekTok p, message⟩

/-- `TokenType::try_into::<Expression>` for literal tokens; `none` is the
unreachable `unwrap` failure in `Parser::primary`. -/
def tryIntoExpr : TokenType → Option Expr
  | .string s => some (.literal (.str s))
  | .number x => some (.literal (.num x))
  | .false_ => some (.literal (.bool false))
  | .nil => some (.literal .nil)
  | .true_ => some (.literal (.bool true))
  | _ => none

/-- Commands of the expression grammar: one per parser method, plus the
states of their internal loops. -/
inductive EP
  | expression
  | assignment
  | lor | lorLoop (acc : Expr)
  | land | landLoop (acc : Expr)
  | equality | equalityLoop (acc : Expr)
  | comparison | comparisonLoop (acc : Expr)
  | term | termLoop (acc : Expr)
  | factor | factorLoop (acc : Expr)
  | unaryP
  | callP
  | finishCall (callee : Expr)
  | argsLoop (callee : Expr) (arguments : List Expr)
  | primary

def runEP (fuel : Nat) (c : EP) (p : PSt) : Except ParseError (Expr × PSt) :=
  match fuel with
  | 0 => .error ⟨dummyToken, "model: fuel exhausted"⟩
  | fuel + 1 =>
    match c with
    | .expression => runEP fuel .assignment p
    | .assignment =>
      match runEP fuel .lor p with
      | .error e => .error e
      | .ok (expr, p) =>
        if peekType p = .equal then
          match expr with
          | .variable_ name =>
            let p := advanceP p
            match runEP fuel .assignment p with
            | .error e => .error e
            | .ok (value, p) => .ok (.assign name value, p)
          | _ => .error ⟨peekTok p, "invalid assignment target"⟩
        else .ok (expr, p)
    | .lor =>
      match runEP fuel .land p with
      | .error e => .error e
      | .ok (expr, p) => runEP fuel (.lorLoop expr) p
    | .lorLoop acc =>
      if peekType p = .or_ then
        let p := advanceP p
        let op := previousTok p
        match runEP fuel .land p with
        | .error e => .error e
        | .ok (right, p) => runEP fuel (.lorLoop (.logical acc op right)) p
      else .ok (acc, p)
    | .land =>
      match runEP fuel .equality p with
      | .error e => .error e
      | .ok (expr, p) => runEP fuel (.landLoop expr) p
    | .landLoop acc =>
      if peekType p = .and_ then
        let p := advanceP p
        let op := previousTok p
        match runEP fuel .equality p with
        | .error e => .error e
        | .ok (right, p) => runEP fuel (.landLoop (.logical acc op right)) p
      else .ok (acc, p)
    | .equality =>
      match runEP fuel .comparison p with
      | .error e => .error e
      | .ok (expr, p) => runEP fuel (.equalityLoop expr) p
    | .equalityLoop acc =>
      if peekType p = .bangEqual ∨ peekType p = .equalEqual then
        let p := advanceP p
        let op := previousTok p
        match runEP fuel .comparison p with
        | .error e => .error e
        | .ok (right, p) => runEP fuel (.equalityLoop (.binary acc op right)) p
      else .ok (acc, p)
    | .comparison =>
      match runEP fuel .term p with
      | .error e => .error e
      | .ok (expr, p) => runEP fuel (.comparisonLoop expr) p
    | .comparisonLoop acc =>
      if peekType p = .less ∨ peekType p = .lessEqual
          ∨ peekType p = .greater ∨ peekType p = .greaterEqual then
        let p := advanceP p
        let op := previousTok p
        match runEP fuel .term p with
        | .error e => .error e
        | .ok (right, p) => runEP fuel (.comparisonLoop (.binary acc op right)) p
      else .ok (acc, p)
    | .term =>
      match runEP fuel .factor p with
      | .error e => .error e
      | .ok (expr, p) => runEP fuel (.termLoop expr) p
    | .termLoop acc =>
      if peekType p = .minus ∨ peekType p = .plus then
        let p := advanceP p
        let op := previousTok p
        match runEP fuel .factor p with
        | .error e => .error e
        | .ok (right, p) => runEP fuel (.termLoop (.binary acc op right)) p
      else .ok (acc, p)
    | .factor =>
      match runEP fuel .unaryP p with
      | .error e => .error e
      | .ok (expr, p) => runEP fuel (.factorLoop expr) p
    | .factorLoop acc =>
      if peekType p = .slash ∨ peekType p = .star then
        let p := advanceP p
        let op := previousTok p
        match runEP fuel .unaryP p with
        | .error e => .error e
        | .ok (right, p) => runEP fuel (.factorLoop (.binary acc op right)) p
      else .ok (acc, p)
    | .unaryP =>
      if peekType p = .minus ∨ peekType p = .bang then
        let p := advanceP p
        let op := previousTok p
        match runEP fuel .unaryP p with
        | .error e => .error e
        | .ok (right, p) => .ok (.unary op right, p)
      else runEP fuel .callP p
    | .callP =>
      match runEP fuel .primary p with
      | .error e => .error e
      | .ok (callee, p) =>
        if peekType p = .leftParen then
          runEP fuel (.finishCall callee) (advanceP p)
        else .ok (callee, p)
    | .finishCall callee =>
      if peekType p ≠ .rightParen then
        match runEP fuel .expression p with
        | .error e => .error e
        | .ok (first, p) => runEP fuel (.argsLoop callee [first]) p
      else
        match consume .rightParen "expected `)` after arguments" p with
        | .error e => .error e
        | .ok (_, p) => .ok (.call callee [], p)
    | .argsLoop callee arguments =>
      if peekType p = .comma then
        let p := advanceP p
        if 255 ≤ arguments.length then
          .error ⟨peekTok p, "can't have more than 255 arguments"⟩
        else
          match runEP fuel .expression p with
          | .error e => .error e
          | .ok (next, p) => runEP fuel (.argsLoop callee (arguments ++ [next])) p
      else
        match consume .rightParen "expected `)` after arguments" p with
        | .error e => .error e
        | .ok (_, p) => .ok (.call callee arguments, p)
    | .primary =>
      match peekType p with
      | .true_ => .ok ((tryIntoExpr .true_).getD (.literal .nil), advanceP p)
      | .false_ => .ok ((tryIntoExpr .false_).getD (.literal .nil), advanceP p)
      | .nil => .ok ((tryIntoExpr .nil).getD (.literal .nil), advanceP p)
      | .number x => .ok ((tryIntoExpr (.number x)).getD (.literal .nil), advanceP p)
      | .string s => .ok ((tryIntoExpr (.string s)).getD (.literal .nil), advanceP p)
      | .leftParen =>
        let p := advanceP p
        match runEP fuel .expression p with
        | .error e => .error e
        | .ok (expr, p) =>
          match consume .rightParen "missing `)` after expression" p with
          | .error e => .error e
          | .ok (_, p) => .ok (.grouping expr, p)
      | .identifier name => .ok (.variable_ name, advanceP p)
      | _ => .error ⟨peekTok p, "unexpected token while parsing"⟩

/-- `Parser::var_declaration` (the `var` keyword is already consumed). -/
def varDeclaration (fuel : Nat) (p : PSt) : Except ParseError (Stmt × PSt) :=
  match peekType p with
  | .identifier name =>
    let p := advanceP p
    match
      (if peekType p = .equal then
        match runEP fuel .expression (advanceP p) with
        | .error e => .error e
        | .ok (expr, p) => .ok (some expr, p)
      else .ok (none, p) : Except ParseError (Option Expr × PSt)) with
    | .error e => .error e
    | .ok (initializer, p) =>
      match consume .semicolon "expected `;` after variable declaration" p with
      | .error e => .error e
      | .ok (_, p) => .ok (.var_ name initializer, p)
  | _ => .error ⟨peekTok p, "expected variable name"⟩

/-- `Parser::expr_statement`. -/
def exprStatement (fuel : Nat) (p : PSt) : Except ParseError (Stmt × PSt) :=
  match runEP fuel .expression p with
  | .error e => .error e
  | .ok (expr, p) =>
    match consume .semicolon "expected `;` after expression" p with
    | .error e => .error e
    | .ok (_, p) => .ok (.expr expr, p)

/-- `Parser::print_statement` (the `print` keyword is already consumed). -/
def printStatement (fuel : Nat) (p : PSt) : Except ParseError (Stmt × PSt) :=
  match runEP fuel .expression p with
  | .error e => .error e
  | .ok (expr, p) =>
    match consume .semicolon "expected `;` after value" p with
    | .error e => .error e
    | .ok (_, p) => .ok (.print expr, p)

/-- `Parser::null_expression`: either the delimiter right away (no
expression) or an expression followed by the delimiter. -/
def nullExpression (fuel : Nat) (delimiter : TokenType) (message : String)
    (p : PSt) : Except ParseError (Option Expr × PSt) :=
  if peekType p = delimiter then .ok (none, advanceP p)
  else
    match runEP fuel .expression p with
    | .error e => .error e
    | .ok (expr, p) =>
      match consume delimiter message p with
      | .error e => .error e
      | .ok (_, p) => .ok (some expr, p)

/-- The `for` desugaring of `Parser::for_statement` (src/parser.rs lines
313-326): `{ init?; while (cond) { body; inc?; } }`, with the increment
also recorded on the `While` node so that `continue` still runs it. -/
def forDesugar (initializer : Option Stmt) (condition : Expr)
    (increment : Option Expr) (body : Stmt) : Stmt :=
  let statements := match initializer with
    | some init => [init]
    | none => []
  let whileBody := match increment with
    | some inc => [body, Stmt.expr inc]
    | none => [body]
  .block (statements ++ [.while_ condition (.block whileBody) increment])

/-- Commands of the statement grammar: one per parser method plus loop
states.  `SRes` below is their joint result. -/
inductive SP
  | parse
  | parseLoop (acc : List Stmt)
  | declaration
  | statement
  | blockP
  | blockLoop (acc : List Stmt)
  | functionDecl
  | paramsLoop (name : String) (parameters : List String)
  | functionBody (name : String) (parameters : List String)
  | ifStatement
  | whileStatement
  | forStatement

inductive SRes
  | one (s : Stmt)
  | many (l : List Stmt)

def runSP (fuel : Nat) (c : SP) (p : PSt) : Except ParseError (SRes × PSt) :=
  match fuel with
  | 0 => .error ⟨dummyToken, "model: fuel exhausted"⟩
  | fuel + 1 =>
    match c with
    -- Parser::parse
    | .parse => runSP fuel (.parseLoop []) p
    | .parseLoop acc =>
      if peekType p = .eof then .ok (.many acc, p)
      else
        match runSP fuel .declaration p with
        | .error e => .error e
        | .ok (.one stmt, p) => runSP fuel (.parseLoop (acc ++ [stmt])) p
        | .ok (.many _, _) => .error ⟨dummyToken, "model: kind mismatch"⟩
    -- Parser::declaration
    | .declaration =>
      match peekType p with
      | .var_ => (varDeclaration fuel (advanceP p)).map (fun r => (.one r.1, r.2))
      | .fun_ => runSP fuel .functionDecl (advanceP p)
      | _ => runSP fuel .statement p
    -- Parser::statement
    | .statement =>
      match peekType p with
      | .print => (printStatement fuel (advanceP p)).map (fun r => (.one r.1, r.2))
      | .leftBrace =>
        match runSP fuel .blockP (advanceP p) with
        | .error e => .error e
        | .ok (.many stmts, p) => .ok (.one (.block stmts), p)
        | .ok (.one _, _) => .error ⟨dummyToken, "model: kind mismatch"⟩
      | .if_ => runSP fuel .ifStatement (advanceP p)
      | .while_ =>
        let p := { p with enclosingLoops := p.enclosingLoops + 1 }
        match runSP fuel .whileStatement (advanceP p) with
        | .error e => .error e
        | .ok (r, p) => .ok (r, { p with enclosingLoops := p.enclosingLoops - 1 })
      | .for_ =>
        let p := { p with enclosingLoops := p.enclosingLoops + 1 }
        match runSP fuel .forStatement (advanceP p) with
        | .error e => .error e
        | .ok (r, p) => .ok (r, { p with enclosingLoops := p.enclosingLoops - 1 })
      | .break_ =>
        if p.enclosingLoops = 0 then
          .error ⟨peekTok p, "`break` outside loop"⟩
        else
          match consume .semicolon "expected `;` after `break`" (advanceP p) with
          | .error e => .error e
          | .ok (_, p) => .ok (.one .break_, p)
      | .continue_ =>
        if p.enclosingLoops = 0 then
          .error ⟨peekTok p, "`continue` not properly in loop"⟩
        else
          match consume .semicolon "expected `;` after `continue`" (advanceP p) with
          | .error e => .error e
          | .ok (_, p) => .ok (.one .continue_, p)
      | _ => (exprStatement fuel p).map (fun r => (.one r.1, r.2))
    -- Parser::block
    | .blockP => runSP fuel (.blockLoop []) p
    | .blockLoop acc =>
      if peekType p ≠ .eof ∧ peekType p ≠ .rightBrace then
        match runSP fuel .declaration p with
        | .error e => .error e
        | .ok (.one stmt, p) => runSP fuel (.blockLoop (acc ++ [stmt])) p
        | .ok (.many _, _) => .error ⟨dummyToken, "model: kind mismatch"⟩
      else
        match consume .rightBrace "expected `\x7d` after block" p with
        | .error e => .error e
        | .ok (_, p) => .ok (.many acc, p)
    -- Parser::function (kind = "function"; the `fun` keyword is consumed)
    | .functionDecl =>
      match consumeIdentifier "expected function name" p with
      | .error e => .error e
      | .ok (name, p) =>
        match consume .leftParen "expected `(` after function name" p with
        | .error e => .error e
        | .ok (_, p) =>
          if peekType p ≠ .rightParen then runSP fuel (.paramsLoop name []) p
          else runSP fuel (.functionBody name []) p
    | .paramsLoop name parameters =>
      match consumeIdentifier "expected parameter name" p with
      | .error e => .error e
      | .ok (parameter, p) =>
        let parameters := parameters ++ [parameter]
        if 255 ≤ parameters.length then
          .error ⟨previousTok p, "can't have more than 255 parameters"⟩
        else
          if peekType p = .comma then
            runSP fuel (.paramsLoop name parameters) (advanceP p)
          else runSP fuel (.functionBody name parameters) p
    | .functionBody name parameters =>
      match consume .rightParen "expected `)` after parameters" p with
      | .error e => .error e
      | .ok (_, p) =>
        match consume .leftBrace "expected `\x7b` before function body" p with
        | .error e => .error e
        | .ok (_, p) =>
          match runSP fuel .blockP p with
          | .error e => .error e
          | .ok (.many body, p) => .ok (.one (.function_ name body parameters), p)
          | .ok (.one _, _) => .error ⟨dummyToken, "model: kind mismatch"⟩
    -- Parser::if_statement
    | .ifStatement =>
      match consume .leftParen "expected `(` after `if`" p with
      | .error e => .error e
      | .ok (_, p) =>
        match runEP fuel .expression p with
        | .error e => .error e
        | .ok (condition, p) =>
          match consume .rightParen "expected `)` after `if`" p with
          | .error e => .error e
          | .ok (_, p) =>
            match runSP fuel .statement p with
            | .error e => .error e
            | .ok (.one thenStmt, p) =>
              if peekType p = .else_ then
                match runSP fuel .statement (advanceP p) with
                | .error e => .error e
                | .ok (.one elseStmt, p) =>
                    .ok (.one (.if_ condition thenStmt (some elseStmt)), p)
                | .ok (.many _, _) => .error ⟨dummyToken, "model: kind mismatch"⟩
              else .ok (.one (.if_ condition thenStmt none), p)
            | .ok (.many _, _) => .error ⟨dummyToken, "model: kind mismatch"⟩
    -- Parser::while_statement
    | .whileStatement =>
      match consume .leftParen "expected `(` after `while`" p with
      | .error e => .error e
      | .ok (_, p) =>
        match runEP fuel .expression p with
        | .error e => .error e
        | .ok (condition, p) =>
          match consume .rightParen "expected `)` after `while`" p with
          | .error e => .error e
          | .ok (_, p) =>
            match runSP fuel .statement p with
            | .error e => .error e
            | .ok (.one body, p) => .ok (.one (.while_ condition body none), p)
            | .ok (.many _, _) => .error ⟨dummyToken, "model: kind mismatch"⟩
    -- Parser::for_statement (note: in the wildcard initializer arm the
    -- source advances before calling expr_statement, exactly as embedded)
    | .forStatement =>
      match consume .leftParen "expected `(` after `for`" p with
      | .error e => .error e
      | .ok (_, p) =>
        match
          (match peekType p with
          | .var_ => (varDeclaration fuel (advanceP p)).map (fun r => (some r.1, r.2))
          | .semicolon => .ok (none, advanceP p)
          | _ => (exprStatement fuel (advanceP p)).map (fun r => (some r.1, r.2))
            : Except ParseError (Option Stmt × PSt)) with
        | .error e => .error e
        | .ok (initializer, p) =>
          match nullExpression fuel .semicolon "expected `;` after loop condition" p with
          | .error e => .error e
          | .ok (conditionOpt, p) =>
            let condition := conditionOpt.getD (.literal (.bool true))
            match nullExpression fuel .rightParen "expected `)` after for clauses" p with
            | .error e => .error e
            | .ok (increment, p) =>
              match runSP fuel .statement p with
              | .error e => .error e
              | .ok (.one body, p) =>
                  .ok (.one (forDesugar initializer condition increment body), p)
              | .ok (.many _, _) => .error ⟨dummyToken, "model: kind mismatch"⟩

/-- `Parser::parse` on a token vector: fuel sufficient for any program
(each recursion level or loop iteration inspects at least one token). -/
def parseProgram (tokens : List Token) : Except ParseError (List Stmt) :=
  match runSP (8 * tokens.length + 64) .parse ⟨tokens, 0, 0⟩ with
  | .error e => .error e
  | .ok (.many stmts, _) => .ok stmts
  | .ok (.one _, _) => .error ⟨dummyToken, "model: kind mismatch"⟩

/-! ## Scanner (src/scanner.rs)

The scanner state mirrors `struct Scanner`: the full source (as a
character list; `source[start..current]` byte slicing coincides with
character slicing on the ASCII sources the scanner accepts), the remaining
stream, the tokens so far, the slice bounds and the position counters.
Each `while` loop of the source is a function structurally recursive on
its own fuel, called with more fuel than the stream length. -/

structure ScanSt where
  source : List Char
  stream : List Char
  tokens : List Token
  start : Nat
  current : Nat
  line : Nat
  col : Nat

/-- `ScanError` of src/errors.rs. -/
inductive ScanErrorType
  | unexpectedCharacter | invalidNumber | unterminatedString
  deriving DecidableEq

structure ScanError where
  line : Nat
  col : Nat
  message : String
  type : ScanErrorType
  deriving DecidableEq

/-- `Scanner::error`. -/
def mkScanError (s : ScanSt) (t : ScanErrorType) (message : String) : ScanError :=
  ⟨s.line, s.col, message, t⟩

/-- `Scanner::peek`. -/
def speek (s : ScanSt) : Option Char := s.stream.head?

/-- `Scanner::advance`: bump `current` and `col`, take the next stream
character, and on a newline bump `line` and reset `col` to 1. -/
def sadvance (s : ScanSt) : Option Char × ScanSt :=
  let s := { s with current := s.current + 1, col := s.col + 1 }
  match s.stream with
  | [] => (none, s)
  | c :: rest =>
    let s := { s with stream := rest }
    if c = '\n' then (some c, { s with line := s.line + 1, col := 1 })
    else (some c, s)

/-- `Scanner::next_match`. -/
def nextMatch (expected : Char) (s : ScanSt) : Bool × ScanSt :=
  match speek s with
  | none => (false, s)
  | some c => if c ≠ expected then (false, s) else (true, (sadvance s).2)

/-- The lexeme slice `source[start..current]`. -/
def sliceLexeme (s : ScanSt) : List Char :=
  (s.source.drop s.start).take (s.current - s.start)

/-- Wrapping `usize` subtraction of a release build (`2 ^ 64` is made
explicit; a debug build would abort on underflow instead, which loses the
claim equally). -/
def usizeSub (a b : Nat) : Nat := (a + 2 ^ 64 - b) % 2 ^ 64

/-- `Scanner::add_token`: the reported column is `col - lexeme.len()`. -/
def addToken (t : TokenType) (s : ScanSt) : ScanSt :=
  let lexeme := sliceLexeme s
  let startCol := usizeSub s.col lexeme.length
  { s with tokens := s.tokens ++ [⟨t, String.mk lexeme, s.line, startCol⟩] }

/-- `Scanner::add_eof_token`. -/
def addEofToken (s : ScanSt) : ScanSt :=
  { s with tokens := s.tokens ++ [⟨.eof, "", s.line, s.col⟩] }

/-- The line-comment loop: consume to (not including) the newline. -/
def commentLoop : Nat → ScanSt → ScanSt
  | 0, s => s
  | fuel + 1, s =>
    match speek s with
    | none => s
    | some c => if c = '\n' then s else commentLoop fuel (sadvance s).2

/-- The `Scanner::string` content loop: consume and collect characters up
to (not including) the closing quote. -/
def stringLoop : Nat → ScanSt → List Char → ScanSt × List Char
  | 0, s, acc => (s, acc)
  | fuel + 1, s, acc =>
    match speek s with
    | none => (s, acc)
    | some c =>
      if c = '"' then (s, acc)
      else
        match sadvance s with
        | (some c, s) => stringLoop fuel s (acc ++ [c])
        | (none, s) => (s, acc)      -- unreachable: peek was some

/-- The digit-consumption loops of `Scanner::number`. -/
def digitsLoop : Nat → ScanSt → ScanSt
  | 0, s => s
  | fuel + 1, s =>
    match speek s with
    | none => s
    | some c => if ¬c.isDigit then s else digitsLoop fuel (sadvance s).2

/-- The identifier loop of `Scanner::identifier` (ASCII letters only). -/
def identLoop : Nat → ScanSt → ScanSt
  | 0, s => s
  | fuel + 1, s =>
    match speek s with
    | none => s
    | some c => if ¬c.isAlpha then s else identLoop fuel (sadvance s).2

/-- Numeric value of the scanned digit slice (`str::parse::<f64>`; exact
on the digit strings the scanner admits, up to `f64` precision which is
abstracted by the rational model). -/
def parseNumber (cs : List Char) : Rat :=
  let intPart := cs.takeWhile (fun c => c ≠ '.')
  let fracPart := (cs.dropWhile (fun c => c ≠ '.')).drop 1
  let digits : List Char → Nat := fun l => l.foldl (fun acc c => 10 * acc + (c.toNat - 48)) 0
  (digits intPart : Nat) + ((digits fracPart : Nat) : Rat) / (10 : Rat) ^ fracPart.length

/-- `Scanner::string` after the opening quote. -/
def stringTok (s : ScanSt) : Except ScanError (TokenType × ScanSt) :=
  let (s, contents) := stringLoop (s.stream.length + 1) s []
  match speek s with
  | none => .error (mkScanError s .unterminatedString "missing \" delimiter")
  | some _ => .ok (.string (String.mk contents), (sadvance s).2)

/-- `Scanner::number` after the first digit. -/
def numberTok (s : ScanSt) : Except ScanError (TokenType × ScanSt) :=
  let s := digitsLoop (s.stream.length + 1) s
  match speek s with
  | some '.' =>
    let s := (sadvance s).2
    let (next, s) := sadvance s
    -- `unwrap_or('a')`: at end of input the test below fails as intended
    let next := next.getD 'a'
    if ¬next.isDigit then
      .error (mkScanError s .invalidNumber "invalid decimal part")
    else
      let s := digitsLoop (s.stream.length + 1) s
      .ok (.number (parseNumber (sliceLexeme s)), s)
  | _ => .ok (.number (parseNumber (sliceLexeme s)), s)

/-- `Scanner::identifier` after the first letter. -/
def identifierTok (s : ScanSt) : TokenType × ScanSt :=
  let s := identLoop (s.stream.length + 1) s
  let name := String.mk (sliceLexeme s)
  ((keywordLookup name).getD (.identifier name), s)

/-- `Scanner::scan_token`: one token (or skipped whitespace/comment) from
a non-empty stream.  `none` in the result means no token was produced. -/
def scanToken (s : ScanSt) : Except ScanError ScanSt :=
  match sadvance s with
  | (none, s) => .ok s               -- unreachable: the caller checked peek
  | (some c, s) =>
    match c with
    | '(' => .ok (addToken .leftParen s)
    | ')' => .ok (addToken .rightParen s)
    | '{' => .ok (addToken .leftBrace s)
    | '}' => .ok (addToken .rightBrace s)
    | ',' => .ok (addToken .comma s)
    | '.' => .ok (addToken .dot s)
    | '-' => .ok (addToken .minus s)
    | '+' => .ok (addToken .plus s)
    | ';' => .ok (addToken .semicolon s)
    | '*' => .ok (addToken .star s)
    | '!' =>
      let (m, s) := nextMatch '=' s
      .ok (addToken (if m then .bangEqual else .bang) s)
    | '=' =>
      let (m, s) := nextMatch '=' s
      .ok (addToken (if m then .equalEqual else .equal) s)
    | '>' =>
      let (m, s) := nextMatch '=' s
      .ok (addToken (if m then .greaterEqual else .greater) s)
    | '<' =>
      let (m, s) := nextMatch '=' s
      .ok (addToken (if m then .lessEqual else .less) s)
    | '/' =>
      let (m, s) := nextMatch '/' s
      if m then .ok (commentLoop (s.stream.length + 1) s)
      else .ok (addToken .slash s)
    | ' ' => .ok s
    | '\r' => .ok s
    | '\t' => .ok s
    | '\n' => .ok s
    | '"' =>
      match stringTok s with
      | .error e => .error e
      | .ok (t, s) => .ok (addToken t s)
    | c =>
      if c.isDigit then
        match numberTok s with
        | .error e => .error e
        | .ok (t, s) => .ok (addToken t s)
      else if c.isAlpha then
        let (t, s) := identifierTok s
        .ok (addToken t s)
      else
        .error (mkScanError s .unexpectedCharacter "unexpected symbol while parsing")

/-- The `Scanner::scan_tokens` loop. -/
def scanLoop : Nat → ScanSt → Except ScanError ScanSt
  | 0, s => .ok s
  | fuel + 1, s =>
    match speek s with
    | none => .ok s
    | some _ =>
      match scanToken { s with start := s.current } with
      | .error e => .error e
      | .ok s => scanLoop fuel s

/-- `Scanner::new` + `Scanner::scan_tokens`: the token list of a source
string, ending in `Eof`, or the first scan error. -/
def scanTokens (source : String) : Except ScanError (List Token) :=
  let cs := source.data
  match scanLoop (cs.length + 1) ⟨cs, cs, [], 0, 0, 1, 1⟩ with
  | .error e => .error e
  | .ok s => .ok (addEofToken s).tokens

/-- The scan-then-parse pipeline of `run` in src/lib.rs, as far as it is
deterministic: `none` when scanning or parsing fails. -/
def scanParse (source : String) : Option (List Stmt) :=
  match scanTokens source with
  | .error _ => none
  | .ok tokens =>
    match parseProgram tokens with
    | .error _ => none
    | .ok statements => some statements

/-! ## Position specification (for the token-position claim)

`lineOf src i` / `colOf src i` are the 1-based line and column of the
character at index `i` of the source, defined exactly as the scanner's
counters evolve: a newline bumps the line and resets the column. -/

def lineOf (src : List Char) : Nat → Nat
  | 0 => 1
  | k + 1 => lineOf src k + (if src.getD k ' ' = '\n' then 1 else 0)

def colOf (src : List Char) : Nat → Nat
  | 0 => 1
  | k + 1 => if src.getD k ' ' = '\n' then 1 else colOf src k + 1

/-- A token's reported position designates a source character equal to the
first character of its lexeme (the claim's round-trip property). -/
def tokenPosGood (src : List Char) (t : Token) : Prop :=
  ∃ i, i < src.length ∧ lineOf src i = t.line ∧ colOf src i = t.col ∧
    t.lexeme.data.head? = some (src.getD i ' ')

/-! ## Helper state values used by the theorems -/

/-- A bare environment of one empty frame, no output, empty oracle. -/
def emptySt : St := { env := [([] : Frame)], out := [], errs := [], oracle := [] }

/-- A `!` token. -/
def bangToken : Token := ⟨.bang, "!", 1, 1⟩

/-! ## Concrete programs used by the claim theorems -/

/-- A parser-accepted program whose execution reaches the interpreter's
internal-error abort: a `break` inside a function body that is lexically
nested in a loop. -/
def c5source : String := "while (true) { fun f() { break; } f(); }"

/-- The statement list `c5source` parses to. -/
def c5program : List Stmt :=
  [.while_ (.literal (.bool true))
    (.block [.function_ "f" [.break_] [], .expr (.call (.variable_ "f") [])]) none]

/-- Parameter-list token `a`. -/
def identA : Token := ⟨.identifier "a", "a", 0, 0⟩

def commaTok : Token := ⟨.comma, ",", 0, 0⟩

def funTok : Token := ⟨.fun_, "fun", 0, 0⟩
def identF : Token := ⟨.identifier "f", "f", 0, 0⟩
def lparenTok : Token := ⟨.leftParen, "(", 0, 0⟩
def rparenTok : Token := ⟨.rightParen, ")", 0, 0⟩
def lbraceTok : Token := ⟨.leftBrace, "\x7b", 0, 0⟩
def rbraceTok : Token := ⟨.rightBrace, "\x7d", 0, 0⟩
def semiTok : Token := ⟨.semicolon, ";", 0, 0⟩
def eofTok : Token := ⟨.eof, "", 0, 0⟩

/-- Tokens of `fun f(a, a, ..., a) {}` with `n` parameters. -/
def funToks (n : Nat) : List Token :=
  [funTok, identF, lparenTok]
  ++ (List.replicate (n - 1) [identA, commaTok]).flatten
  ++ (if n = 0 then [] else [identA])
  ++ [rparenTok, lbraceTok, rbraceTok, eofTok]

/-- Tokens of the call statement `f(a, a, ..., a);` with `n` arguments. -/
def callToks (n : Nat) : List Token :=
  [identF, lparenTok]
  ++ (List.replicate (n - 1) [identA, commaTok]).flatten
  ++ (if n = 0 then [] else [identA])
  ++ [rparenTok, semiTok, eofTok]

/-- A source whose only token is a string literal spanning two lines. -/
def c9source : String := "\"a\nb\""

/-- The (mis-positioned) string token that `c9source` scans to: the line
is the *last* line of the literal and the column has wrapped around
(`col - lexeme.len()` underflows). -/
def c9token : Token := ⟨.string "a\nb", "\"a\nb\"", 2, 2 ^ 64 - 2⟩

/-- Bool-valued check that a parse result is a specific error. -/
def isErrWith (r : Except ParseError (List Stmt)) (e : ParseError) : Bool :=
  match r with
  | .error e2 => e2 = e
  | .ok _ => false

/-- Bool-valued check that a parse result is a success. -/
def isOkP (r : Except ParseError (List Stmt)) : Bool :=
  match r with
  | .error _ => false
  | .ok _ => true

/-- The unconsumed token suffix of a parser state. -/
def rem (p : PSt) : List Token := p.tokens.drop p.current

/-- The parameter-list tokens `a , a , ... a ,` (`k` ident-comma pairs). -/
def reps (k : Nat) : List Token := (List.replicate k [identA, commaTok]).flatten

/-- The scanner state is coupled to the source: the stream is the
unconsumed suffix and the `line`/`col` counters are the position of the
next character, exactly as `lineOf`/`colOf` define it. -/
def coupled (s : ScanSt) : Prop :=
  s.current ≤ s.source.length ∧
  s.stream = s.source.drop s.current ∧
  s.line = lineOf s.source s.current ∧
  s.col = colOf s.source s.current

/-- A token is good when, if its lexeme stays on one line, its reported
position designates the lexeme's first character. -/
def goodTok (src : List Char) (t : Token) : Prop :=
  t.lexeme.data.contains '\n' = false → tokenPosGood src t

/-! ## Claim theorems -/

/-- C1.  The live evaluator (`Expression::evaluate` in src/expression.rs,
the module wired into lib.rs; the near-identical copy in the unused
src/grammar.rs negates) maps `Unary(!, e)` to the operand's *truthiness*
itself, not its boolean negation: `!true` evaluates to `Bool(true)` and
`!false`, `!nil` both evaluate to `Bool(false)`.  This contradicts the
claim (and the spec, the `impl Not for Object` the file itself defines,
and src/grammar.rs), so it is recorded as a code bug. -/
theorem c1_bang_returns_truthiness_not_negation :
    run 2 (.e (.unary bangToken (.literal (.bool true)))) emptySt
      = .ok (.obj (.bool true)) emptySt
    ∧ run 2 (.e (.unary bangToken (.literal (.bool false)))) emptySt
      = .ok (.obj (.bool false)) emptySt
    ∧ run 2 (.e (.unary bangToken (.literal .nil))) emptySt
      = .ok (.obj (.bool false)) emptySt := by
  exact ⟨rfl, rfl, rfl⟩

/-- C2.  `Interpreter::interpret` catches each statement's runtime error,
prints it to stderr and *continues with the next statement*: in the unit
`nope; var y = 1;` the undefined-name error is reported and the following
declaration still executes (afterwards `y` is bound to `1`).  The
`process::exit(1)` path of `run` in src/lib.rs, written for an `Err` from
`interpret`, is unreachable because `interpret` swallows every statement
error; runtime errors are not fatal to the evaluation unit, contradicting
the claim. -/
theorem c2_runtime_error_not_fatal_to_unit :
    run 10 (.prog [.expr (.variable_ "nope"),
                   .var_ "y" (some (.literal (.num 1)))]) emptySt
      = .ok (.sig none)
        { env := [[("y", some (.num 1))]],
          out := [],
          errs := ["runtime error: name `nope` is not defined"],
          oracle := [] } := by
  rfl

/-- C6.  The scanner's keyword table (src/scanner.rs lines 10-29) contains
`var`, `fun`, `super` and `this` and does not contain `let` or `fn`:
scanning `let` and `fn` yields `Identifier` tokens while `super`, `var`
and `fun` scan as keywords, contradicting the claim's keyword set (which
the repository's own test suite expects).  This is recorded as a code bug
of the snapshot's scanner. -/
theorem c6_keyword_table_uses_var_fun_not_let_fn :
    scanTokens "let" = .ok [⟨.identifier "let", "let", 1, 1⟩, ⟨.eof, "", 1, 4⟩]
    ∧ scanTokens "fn" = .ok [⟨.identifier "fn", "fn", 1, 1⟩, ⟨.eof, "", 1, 3⟩]
    ∧ scanTokens "super" = .ok [⟨.super_, "super", 1, 1⟩, ⟨.eof, "", 1, 6⟩]
    ∧ scanTokens "var" = .ok [⟨.var_, "var", 1, 1⟩, ⟨.eof, "", 1, 4⟩]
    ∧ scanTokens "fun" = .ok [⟨.fun_, "fun", 1, 1⟩, ⟨.eof, "", 1, 4⟩] := by
  exact ⟨rfl, rfl, rfl, rfl, rfl⟩

/-- C3 counterexample.  An `If` whose condition evaluates to `Number(1)`
(truthy under the claim's definition) executes the *else* branch: the
interpreter's `If` arm pattern-matches on exactly `Object::Bool(true)`.
Here the else branch binds `a` to `2`, where the claim requires the then
branch (binding `a` to `1`) to run. -/
theorem c3_counterexample_number_condition_takes_else_branch :
    run 10 (.s (.if_ (.literal (.num 1))
        (.var_ "a" (some (.literal (.num 1))))
        (some (.var_ "a" (some (.literal (.num 2))))))) emptySt
      = .ok (.sig none) { emptySt with env := [[("a", some (.num 2))]] } := by
  rfl

/-- C4 counterexample.  `fun f() { { var x = 1; return x; } }` called with
no arguments: the `Return` signal carries the *unevaluated* expression
`x`; `UserDefinedFunction::call` evaluates it only after the inner block's
frame has been popped, so the call fails with "name `x` is not defined"
instead of returning `Number(1)` as the claim requires. -/
theorem c4_counterexample_returned_inner_variable_not_found :
    run 20 (.e (.call (.variable_ "f") []))
        { emptySt with
          env := [[("f", some (.callable (.userFn "f"
            [.block [.var_ "x" (some (.literal (.num 1))),
                     .return_ (some (.variable_ "x"))]] [])))]] }
      = .err "name `x` is not defined"
        { emptySt with
          env := [[("f", some (.callable (.userFn "f"
            [.block [.var_ "x" (some (.literal (.num 1))),
                     .return_ (some (.variable_ "x"))]] [])))]] } := by
  rfl

/-- C5 counterexample.  The program
`while (true) { fun f() { break; } f(); }` is accepted by the parser (the
loop-depth counter is not reset inside a function body), and running it
from the initial environment reaches the interpreter's internal-error
abort: calling `f` makes a `Break` signal emerge at the top level of the
function body's `interpret`, whose non-`Return` arm panics.  The panic
branch is therefore reachable for a parser-accepted program. -/
theorem c5_counterexample_accepted_program_panics :
    scanParse c5source = some c5program
    ∧ run 50 (.prog c5program) initSt = .panicked := by
  exact ⟨rfl, rfl⟩

/-- C9 counterexample.  Scanning the two-line string literal source
`"a\nb"` succeeds, but the string token records line 2 (the line of the
*closing* quote) and column `2^64 - 2` (the `col - lexeme.len()`
subtraction in `Scanner::add_token` underflows and wraps), so its
reported position designates no source character at all, let alone one
matching the first character of the lexeme. -/
theorem c9_counterexample_multiline_string_position_wrong :
    scanTokens c9source = .ok [c9token, ⟨.eof, "", 2, 3⟩]
    ∧ ¬ tokenPosGood c9source.data c9token := by
  refine ⟨rfl, ?_⟩
  rintro ⟨i, hi, -, hcol, -⟩
  have hlen : c9source.data.length = 5 := rfl
  have hall : ∀ j, j < 5 → colOf c9source.data j ≠ 2 ^ 64 - 2 := by decide
  exact hall i (hlen ▸ hi) hcol

/-- C10 counterexample.  Evaluating `y = (x = 1)` in an environment where
`x` is bound but `y` is not fails (as the claim says), yet the
environment is *not* left unchanged: the inner assignment to `x` has
already taken effect when the outer update fails. -/
theorem c10_counterexample_failed_assignment_mutates_environment :
    run 10 (.e (.assign "y" (.assign "x" (.literal (.num 1)))))
        { emptySt with env := [[("x", some (.num 0))]] }
      = .err "name `y` is not defined" { emptySt with env := [[("x", some (.num 1))]] } := by
  rfl

/-- C3 (amended).  The `If` arm of `Interpreter::execute` pattern-matches
the evaluated condition against exactly `Object::Bool(true)`: the then
branch executes iff the condition's value is `Bool(true)`; *any* other
value — including truthy values such as `Number(1)` — falls through to
the else branch when present, otherwise the statement is a no-op. -/
theorem c3_then_branch_iff_condition_bool_true
    (fuel : Nat) (condition : Expr) (thenStmt : Stmt) (elseStmt : Option Stmt)
    (st st' : St) (v : Obj)
    (h : run fuel (.e condition) st = .ok (.obj v) st') :
    (v = .bool true →
      run (fuel + 1) (.s (.if_ condition thenStmt elseStmt)) st
        = run fuel (.s thenStmt) st')
    ∧ (v ≠ .bool true →
      run (fuel + 1) (.s (.if_ condition thenStmt elseStmt)) st
        = match elseStmt with
          | some e => run fuel (.s e) st'
          | none => .ok (.sig none) st') := by
  constructor
  · intro hv
    subst hv
    simp [run, h]
  · intro hv
    have hstep : run (fuel + 1) (.s (.if_ condition thenStmt elseStmt)) st
        = (match v with
           | .bool true => run fuel (.s thenStmt) st'
           | _ => match elseStmt with
                  | some e => run fuel (.s e) st'
                  | none => .ok (.sig none) st') := by
      simp [run, h]
    rw [hstep]
    cases v with
    | bool b =>
      cases b with
      | true => exact absurd rfl hv
      | false => rfl
    | str s => rfl
    | num x => rfl
    | callable c => rfl
    | nil => rfl

/-- Witness for C3: an `If` on a concrete non-`Bool(true)` condition
(`Number(1)`) reduces to its else branch. -/
theorem c3_then_branch_iff_condition_bool_true_witness :
    run 2 (.s (.if_ (.literal (.num 1)) .null (some .null))) emptySt
      = run 1 (.s .null) emptySt := by
  exact (c3_then_branch_iff_condition_bool_true 1 (.literal (.num 1)) .null
    (some .null) emptySt emptySt (.num 1) rfl).2 (fun hv => Obj.noConfusion hv)

/-- C4 (amended).  A `Return` statement produces `Signal::Return` carrying
its *unevaluated* expression.  When the signal emerges from the body,
`UserDefinedFunction::call` evaluates the expression — at that point every
inner block frame of the body has already been popped, so evaluation
happens in the parameters' frame over the caller's environment.  The call
result is that value (errors propagate after the frame is popped); a
missing return expression or ordinary fallthrough yields `Nil`. -/
theorem c4_return_expression_evaluated_after_body
    (fuel : Nat) (name : String) (params : List String) (body : List Stmt)
    (objs : List Obj) (st st2 : St) (sigOut : Option Signal)
    (h : run fuel (.prog body)
        (bindParams params objs { st with env := enterBlock st.env })
      = .ok (.sig sigOut) st2) :
    run (fuel + 1) (.callC (.userFn name body params) objs) st
      = match sigOut with
        | some (.ret (some e)) =>
          (match run fuel (.e e) st2 with
           | .ok (.obj v) st3 => .ok (.obj v) { st3 with env := exitBlock st3.env }
           | .ok _ _ => .panicked
           | .err m st3 => .err m { st3 with env := exitBlock st3.env }
           | o => o)
        | _ => .ok (.obj .nil) { st2 with env := exitBlock st2.env } := by
  have hstep : run (fuel + 1) (.callC (.userFn name body params) objs) st
      = (match (.ok (.sig sigOut) st2 : Outcome RVal) with
         | .ok (.sig (some (.ret (some expr)))) st3 =>
           (match run fuel (.e expr) st3 with
            | .ok (.obj v) st4 => .ok (.obj v) { st4 with env := exitBlock st4.env }
            | .ok _ _ => .panicked
            | .err m st4 => .err m { st4 with env := exitBlock st4.env }
            | o => o)
         | .ok (.sig _) st3 => .ok (.obj .nil) { st3 with env := exitBlock st3.env }
         | .ok _ _ => .panicked
         | .err m st3 => .err m st3
         | o => o) := by
    rw [show run (fuel + 1) (.callC (.userFn name body params) objs) st
        = (match run fuel (.prog body)
            (bindParams params objs { st with env := enterBlock st.env }) with
           | .ok (.sig (some (.ret (some expr)))) st3 =>
             (match run fuel (.e expr) st3 with
              | .ok (.obj v) st4 => .ok (.obj v) { st4 with env := exitBlock st4.env }
              | .ok _ _ => .panicked
              | .err m st4 => .err m { st4 with env := exitBlock st4.env }
              | o => o)
           | .ok (.sig _) st3 => .ok (.obj .nil) { st3 with env := exitBlock st3.env }
           | .ok _ _ => .panicked
           | .err m st3 => .err m st3
           | o => o) from rfl, h]
  rw [hstep]
  match sigOut with
  | some (.ret (some e)) => rfl
  | some (.ret none) => rfl
  | some .brk => rfl
  | some .cont => rfl
  | none => rfl

/-- Witness for C4: calling a zero-parameter function whose body is
`return;` yields `Nil`. -/
theorem c4_return_expression_evaluated_after_body_witness :
    run 6 (.callC (.userFn "f" [.return_ none] []) []) emptySt
      = .ok (.obj .nil) emptySt := by
  exact c4_return_expression_evaluated_after_body 5 "f" [] [.return_ none] []
    emptySt { emptySt with env := enterBlock emptySt.env } (some (.ret none)) rfl

/-- C5 (amended).  The parser's static check really does reject `break`
and `continue` whenever the loop-depth counter is zero — but the counter
counts syntactic loop nesting *across* function boundaries (`function`
does not reset it), so a `break`/`continue` inside a function body that is
itself inside a loop is accepted, and by `c5` counterexample the
interpreter's internal-error panic branch is then reachable at runtime. -/
theorem c5_parser_rejects_break_continue_at_depth_zero
    (fuel : Nat) (p : PSt) (h : p.enclosingLoops = 0) :
    (peekType p = .break_ →
      runSP (fuel + 1) .statement p = .error ⟨peekTok p, "`break` outside loop"⟩)
    ∧ (peekType p = .continue_ →
      runSP (fuel + 1) .statement p
        = .error ⟨peekTok p, "`continue` not properly in loop"⟩) := by
  constructor <;> intro hpk <;> simp [runSP, hpk, h]

/-- Witness for C5: a lone top-level `break` is rejected with
"`break` outside loop". -/
theorem c5_parser_rejects_break_continue_at_depth_zero_witness :
    runSP 3 .statement ⟨[⟨.break_, "break", 1, 1⟩], 0, 0⟩
      = .error ⟨⟨.break_, "break", 1, 1⟩, "`break` outside loop"⟩ := by
  exact (c5_parser_rejects_break_continue_at_depth_zero 2
    ⟨[⟨.break_, "break", 1, 1⟩], 0, 0⟩ rfl).1 rfl

/-- C10 (amended).  A successful assignment evaluates to the assigned
value (so chains like `a = b = 1` propagate it); when the target name is
bound in no frame the *update itself* leaves the environment exactly as it
was after evaluating the right-hand side — but side effects of that
evaluation do persist (see the counterexample), which is the one
qualification the claim needs. -/
theorem c10_assignment_value_and_pure_update
    (fuel : Nat) (name : String) (value : Expr) (st st1 : St) (v : Obj)
    (h : run fuel (.e value) st = .ok (.obj v) st1) :
    run (fuel + 1) (.e (.assign name value)) st
      = match envUpdate name v st1.env with
        | some env2 => .ok (.obj v) { st1 with env := env2 }
        | none => .err ("name `" ++ name ++ "` is not defined") st1 := by
  simp [run, h]

/-- Witness for C10: the chained assignment `a = (b = 1)` evaluates to
`Number(1)` and stores it in both slots. -/
theorem c10_assignment_value_and_pure_update_witness :
    run 3 (.e (.assign "a" (.assign "b" (.literal (.num 1)))))
        { emptySt with env := [[("a", some .nil), ("b", some .nil)]] }
      = .ok (.obj (.num 1))
        { emptySt with env := [[("a", some (.num 1)), ("b", some (.num 1))]] } := by
  exact c10_assignment_value_and_pure_update 2 "a" (.assign "b" (.literal (.num 1)))
    { emptySt with env := [[("a", some .nil), ("b", some .nil)]] }
    { emptySt with env := [[("a", some .nil), ("b", some (.num 1))]] } (.num 1) rfl

/-- C8 (confirmed).  For a desugared `for (init; cond; inc) body` loop,
the increment runs exactly once per iteration regardless of how the body
ends: (1) `Parser::for_statement` rewrites the loop to
`{ init?; while (cond) { body; inc; } }` with `inc` also recorded on the
`While` node; (2) an iteration whose body falls through reaches the single
trailing `inc` expression statement, evaluating `inc` exactly once before
the block exits (and the loop re-tests `cond`); (3) a `continue` signal
leaves the block immediately, *skipping* the trailing `inc` statement; and
(4) the `While` loop's `Continue` arm then evaluates the recorded
increment exactly once before re-entering the loop (whose first step
re-tests `cond`). -/
theorem c8_for_increment_exactly_once_per_iteration :
    (∀ (initializer : Option Stmt) (condition : Expr) (inc : Expr) (body : Stmt),
      forDesugar initializer condition (some inc) body
        = .block ((match initializer with | some i => [i] | none => [])
            ++ [.while_ condition (.block [body, .expr inc]) (some inc)]))
    ∧ (∀ (fuel : Nat) (body : Stmt) (inc : Expr) (st st2 : St),
        run (fuel + 2) (.s body) { st with env := enterBlock st.env }
            = .ok (.sig none) st2 →
        run (fuel + 4) (.s (.block [body, .expr inc])) st
          = match run fuel (.e inc) st2 with
            | .ok (.obj _) st3 => .ok (.sig none) { st3 with env := exitBlock st3.env }
            | .ok _ _ => .panicked
            | o => o)
    ∧ (∀ (fuel : Nat) (body : Stmt) (inc : Expr) (st st2 : St),
        run (fuel + 1) (.s body) { st with env := enterBlock st.env }
            = .ok (.sig (some .cont)) st2 →
        run (fuel + 3) (.s (.block [body, .expr inc])) st
          = .ok (.sig (some .cont)) { st2 with env := exitBlock st2.env })
    ∧ (∀ (fuel : Nat) (condition inc : Expr) (dbody : Stmt) (st st1 st2 : St) (v : Obj),
        run fuel (.e condition) st = .ok (.obj v) st1 →
        truthy v = true →
        run fuel (.s dbody) st1 = .ok (.sig (some .cont)) st2 →
        run (fuel + 1) (.whileLoop condition dbody (some inc)) st
          = match run fuel (.e inc) st2 with
            | .ok (.obj _) st3 => run fuel (.whileLoop condition dbody (some inc)) st3
            | .ok _ _ => .panicked
            | o => o) := by
  refine ⟨?_, ?_, ?_, ?_⟩
  · intro initializer condition inc body
    cases initializer <;> rfl
  · intro fuel body inc st st2 h
    rw [show run (fuel + 4) (.s (.block [body, .expr inc])) st
        = (match run (fuel + 2) (.s body) { st with env := enterBlock st.env } with
           | .ok (.sig ctl) st1 =>
             (match ctl with
              | some _ => .ok (.sig ctl) { st1 with env := exitBlock st1.env }
              | none => run (fuel + 2) (.blockLoop [.expr inc]) st1)
           | .ok _ _ => .panicked
           | o => o) from rfl, h]
    show run (fuel + 2) (.blockLoop [.expr inc]) st2 = _
    rw [show run (fuel + 2) (.blockLoop [.expr inc]) st2
        = (match run (fuel + 1) (.s (.expr inc)) st2 with
           | .ok (.sig ctl) st3 =>
             (match ctl with
              | some _ => .ok (.sig ctl) { st3 with env := exitBlock st3.env }
              | none => run (fuel + 1) (.blockLoop []) st3)
           | .ok _ _ => .panicked
           | o => o) from rfl,
        show run (fuel + 1) (.s (.expr inc)) st2
        = (match run fuel (.e inc) st2 with
           | .ok (.obj v) st3 => .ok (.sig none) st3
           | .ok _ _ => .panicked
           | o => o) from rfl]
    cases hr : run fuel (.e inc) st2 with
    | ok a st3 => cases a <;> rfl
    | err m st3 => rfl
    | panicked => rfl
    | exited code => rfl
    | diverge => rfl
  · intro fuel body inc st st2 h
    rw [show run (fuel + 3) (.s (.block [body, .expr inc])) st
        = (match run (fuel + 1) (.s body) { st with env := enterBlock st.env } with
           | .ok (.sig ctl) st1 =>
             (match ctl with
              | some _ => .ok (.sig ctl) { st1 with env := exitBlock st1.env }
              | none => run (fuel + 1) (.blockLoop [.expr inc]) st1)
           | .ok _ _ => .panicked
           | o => o) from rfl, h]
  · intro fuel condition inc dbody st st1 st2 v hc hv hb
    have h1 : run (fuel + 1) (.whileLoop condition dbody (some inc)) st
        = (if truthy v = true then
             (match run fuel (.s dbody) st1 with
              | .ok (.sig none) s2 => run fuel (.whileLoop condition dbody (some inc)) s2
              | .ok (.sig (some .brk)) s2 => .ok (.sig none) s2
              | .ok (.sig (some .cont)) s2 =>
                (match run fuel (.e inc) s2 with
                 | .ok (.obj _) st3 => run fuel (.whileLoop condition dbody (some inc)) st3
                 | .ok _ _ => .panicked
                 | o => o)
              | .ok (.sig (some sig)) s2 => .ok (.sig (some sig)) s2
              | .ok _ _ => .panicked
              | o => o)
           else .ok (.sig none) st1) := by
      rw [show run (fuel + 1) (.whileLoop condition dbody (some inc)) st
          = (match run fuel (.e condition) st with
             | .ok (.obj w) s1 =>
               if truthy w = true then
                 (match run fuel (.s dbody) s1 with
                  | .ok (.sig none) s2 => run fuel (.whileLoop condition dbody (some inc)) s2
                  | .ok (.sig (some .brk)) s2 => .ok (.sig none) s2
                  | .ok (.sig (some .cont)) s2 =>
                    (match run fuel (.e inc) s2 with
                     | .ok (.obj _) st3 => run fuel (.whileLoop condition dbody (some inc)) st3
                     | .ok _ _ => .panicked
                     | o => o)
                  | .ok (.sig (some sig)) s2 => .ok (.sig (some sig)) s2
                  | .ok _ _ => .panicked
                  | o => o)
               else .ok (.sig none) s1
             | .ok _ _ => .panicked
             | o => o) from rfl, hc]
    rw [h1, hv, if_pos rfl, hb]

/-- Witness for C8: concrete instances of all four parts — the desugared
shape for `for (; true; 1) continue;`-like components, one fallthrough
iteration, one continue iteration skipping the trailing increment, and the
`While` continue arm running the increment before re-testing. -/
theorem c8_for_increment_exactly_once_per_iteration_witness :
    forDesugar none (.literal (.bool true)) (some (.literal (.num 1))) .continue_
      = .block [.while_ (.literal (.bool true))
          (.block [.continue_, .expr (.literal (.num 1))]) (some (.literal (.num 1)))]
    ∧ run 5 (.s (.block [.null, .expr (.literal (.num 1))])) emptySt
      = .ok (.sig none) emptySt
    ∧ run 4 (.s (.block [.continue_, .expr (.literal (.num 1))])) emptySt
      = .ok (.sig (some .cont)) emptySt
    ∧ run 3 (.whileLoop (.literal (.bool true)) .continue_ (some (.literal (.num 1)))) emptySt
      = run 2 (.whileLoop (.literal (.bool true)) .continue_ (some (.literal (.num 1)))) emptySt := by
  refine ⟨?_, ?_, ?_, ?_⟩
  · exact c8_for_increment_exactly_once_per_iteration.1 none (.literal (.bool true))
      (.literal (.num 1)) .continue_
  · exact c8_for_increment_exactly_once_per_iteration.2.1 1 .null (.literal (.num 1))
      emptySt { emptySt with env := enterBlock emptySt.env } rfl
  · exact c8_for_increment_exactly_once_per_iteration.2.2.1 1 .continue_ (.literal (.num 1))
      emptySt { emptySt with env := enterBlock emptySt.env } rfl
  · exact c8_for_increment_exactly_once_per_iteration.2.2.2 2 (.literal (.bool true))
      (.literal (.num 1)) .continue_ emptySt emptySt emptySt (.bool true) rfl rfl rfl

/-! ## Parser-loop lemmas (for the 255-parameter/argument claim)

The loops of `Parser::function` and `Parser::finish_call` are
characterised by induction over the unconsumed token suffix.  `rem p` is
that suffix; all cursor reasoning happens through it. -/

theorem getD_eq_headD_drop {α : Type} (l : List α) (n : Nat) (d : α) :
    l.getD n d = (l.drop n).headD d := by
  induction l generalizing n with
  | nil => cases n <;> rfl
  | cons x xs ih => cases n with
    | zero => rfl
    | succ m => exact ih m

theorem peekTok_of_rem {p : PSt} {t : Token} {ts : List Token}
    (h : rem p = t :: ts) : peekTok p = t := by
  have h2 : p.tokens.drop p.current = t :: ts := h
  show p.tokens.getD p.current dummyToken = t
  rw [getD_eq_headD_drop, h2]
  rfl

theorem peekType_of_rem {p : PSt} {t : Token} {ts : List Token}
    (h : rem p = t :: ts) : peekType p = t.type := by
  unfold peekType
  rw [peekTok_of_rem h]

theorem advanceP_of_rem {p : PSt} {t : Token} {ts : List Token}
    (h : rem p = t :: ts) (ht : t.type ≠ .eof) :
    advanceP p = { p with current := p.current + 1 } := by
  unfold advanceP
  rw [if_pos]
  rw [peekType_of_rem h]
  exact ht

theorem drop_succ_of_cons {α : Type} {l : List α} {n : Nat} {t : α} {ts : List α}
    (h : l.drop n = t :: ts) : l.drop (n + 1) = ts := by
  induction n generalizing l with
  | zero =>
    cases l with
    | nil => exact absurd h (by simp)
    | cons x xs =>
      simp only [List.drop] at h ⊢
      cases h
      rfl
  | succ m ih =>
    cases l with
    | nil => exact absurd h (by simp)
    | cons x xs => exact ih h

theorem rem_bump {p : PSt} {t : Token} {ts : List Token}
    (h : rem p = t :: ts) :
    rem { p with current := p.current + 1 } = ts := by
  have h2 : p.tokens.drop p.current = t :: ts := h
  show p.tokens.drop (p.current + 1) = ts
  exact drop_succ_of_cons h2

theorem previousTok_bump {p : PSt} {t : Token} {ts : List Token}
    (h : rem p = t :: ts) :
    previousTok { p with current := p.current + 1 } = t := by
  have h2 : p.tokens.drop p.current = t :: ts := h
  show p.tokens.getD (p.current + 1 - 1) dummyToken = t
  have h1 : p.current + 1 - 1 = p.current := rfl
  rw [h1, getD_eq_headD_drop, h2]
  rfl

theorem consumeIdentifier_of_rem {p : PSt} {s : String} {t : Token}
    {ts : List Token} (msg : String)
    (h : rem p = t :: ts) (ht : t.type = .identifier s) :
    consumeIdentifier msg p = .ok (s, { p with current := p.current + 1 }) := by
  unfold consumeIdentifier
  rw [peekType_of_rem h, ht,
    advanceP_of_rem h (by rw [ht]; intro hx; exact TokenType.noConfusion hx)]

theorem reps_succ (k : Nat) : reps (k + 1) = identA :: commaTok :: reps k := rfl

theorem reps_length (k : Nat) : (reps k).length = 2 * k := by
  induction k with
  | zero => rfl
  | succ n ih =>
    rw [reps_succ]
    simp only [List.length_cons, ih]
    omega

/-- One unfolding of the parameter loop of `Parser::function`. -/
theorem paramsLoop_unfold (fuel : Nat) (name : String) (params : List String)
    (p : PSt) :
    runSP (fuel + 1) (.paramsLoop name params) p
      = match consumeIdentifier "expected parameter name" p with
        | .error e => .error e
        | .ok (parameter, p1) =>
          if 255 ≤ (params ++ [parameter]).length then
            .error ⟨previousTok p1, "can't have more than 255 parameters"⟩
          else if peekType p1 = .comma then
            runSP fuel (.paramsLoop name (params ++ [parameter])) (advanceP p1)
          else runSP fuel (.functionBody name (params ++ [parameter])) p1 := rfl

/-- One step of the parameter loop after a successful parameter consume. -/
theorem paramsLoop_step (fuel : Nat) (name : String) (params : List String)
    {p p1 : PSt}
    (hc : consumeIdentifier "expected parameter name" p = .ok ("a", p1)) :
    runSP (fuel + 1) (.paramsLoop name params) p
      = if 255 ≤ (params ++ ["a"]).length then
          .error ⟨previousTok p1, "can't have more than 255 parameters"⟩
        else if peekType p1 = .comma then
          runSP fuel (.paramsLoop name (params ++ ["a"])) (advanceP p1)
        else runSP fuel (.functionBody name (params ++ ["a"])) p1 := by
  rw [paramsLoop_unfold, hc]

/-- `Parser::function`'s parameter loop errors with "can't have more than
255 parameters" as soon as the 255th parameter has been pushed, whenever
enough `a ,` pairs remain to get there. -/
theorem paramsLoop_error (k : Nat) :
    ∀ (fuel : Nat) (p : PSt) (name : String) (params : List String)
      (rest : List Token),
    rem p = reps k ++ identA :: rest →
    params.length ≤ 254 → 254 ≤ params.length + k →
    runSP (fuel + k + 1) (.paramsLoop name params) p
      = .error ⟨identA, "can't have more than 255 parameters"⟩ := by
  induction k with
  | zero =>
    intro fuel p name params rest hrem hle hge
    have hrem0 : rem p = identA :: rest := hrem
    have hlen : params.length = 254 := by omega
    rw [paramsLoop_step (fuel + 0) name params (consumeIdentifier_of_rem _ hrem0 rfl)]
    rw [if_pos (by simp [hlen])]
    rw [previousTok_bump hrem0]
  | succ k ih =>
    intro fuel p name params rest hrem hle hge
    rw [reps_succ] at hrem
    rw [show fuel + (k + 1) + 1 = (fuel + k + 1) + 1 from rfl,
      paramsLoop_step (fuel + k + 1) name params (consumeIdentifier_of_rem _ hrem rfl)]
    by_cases h254 : params.length = 254
    · rw [if_pos (by simp [h254])]
      rw [previousTok_bump hrem]
    · rw [if_neg (by simp only [List.length_append, List.length_cons, List.length_nil]; omega)]
      have hrem1 : rem { p with current := p.current + 1 }
          = commaTok :: (reps k ++ identA :: rest) := rem_bump hrem
      rw [peekType_of_rem hrem1, if_pos (show commaTok.type = TokenType.comma from rfl)]
      rw [advanceP_of_rem hrem1 (by intro hx; exact TokenType.noConfusion hx)]
      have hrem2 : rem { p with current := p.current + 1 + 1 }
          = reps k ++ identA :: rest := rem_bump (p := { p with current := p.current + 1 }) hrem1
      exact ih fuel _ name (params ++ ["a"]) rest hrem2
        (by simp only [List.length_append, List.length_cons, List.length_nil]; omega)
        (by simp only [List.length_append, List.length_cons, List.length_nil]; omega)

theorem consume_of_rem {p : PSt} {t : Token} {ts : List Token}
    (tt : TokenType) (msg : String)
    (h : rem p = t :: ts) (ht : t.type = tt) (hne : t.type ≠ .eof) :
    consume tt msg p = .ok (peekTok { p with current := p.current + 1 },
      { p with current := p.current + 1 }) := by
  unfold consume
  rw [peekType_of_rem h, if_pos ht, advanceP_of_rem h hne]

/-- Completing a parameterless-body function after the parameter list:
`) { }` yields the `Function` statement. -/
theorem functionBody_finish (fuel : Nat) (name : String) (params : List String)
    (p : PSt) (rest : List Token)
    (hrem : rem p = rparenTok :: lbraceTok :: rbraceTok :: rest) :
    runSP (fuel + 3) (.functionBody name params) p
      = .ok (.one (.function_ name [] params), { p with current := p.current + 3 }) := by
  have hrem1 : rem { p with current := p.current + 1 }
      = lbraceTok :: rbraceTok :: rest := rem_bump hrem
  have hrem2 : rem { p with current := p.current + 1 + 1 }
      = rbraceTok :: rest := rem_bump (p := { p with current := p.current + 1 }) hrem1
  rw [show runSP (fuel + 3) (.functionBody name params) p
      = (match consume .rightParen "expected `)` after parameters" p with
         | .error e => .error e
         | .ok (_, p1) =>
           match consume .leftBrace "expected `\x7b` before function body" p1 with
           | .error e => .error e
           | .ok (_, p2) =>
             match runSP (fuel + 2) .blockP p2 with
             | .error e => .error e
             | .ok (.many body, p3) => .ok (.one (.function_ name body params), p3)
             | .ok (.one _, _) => .error ⟨dummyToken, "model: kind mismatch"⟩)
      from rfl]
  rw [consume_of_rem .rightParen _ hrem rfl (by intro hx; exact TokenType.noConfusion hx)]
  show ((match consume .leftBrace "expected `\x7b` before function body"
          { p with current := p.current + 1 } with
        | .error e => .error e
        | .ok (_, p2) =>
          match runSP (fuel + 2) .blockP p2 with
          | .error e => .error e
          | .ok (.many body, p3) => .ok (.one (.function_ name body params), p3)
          | .ok (.one _, _) => .error ⟨dummyToken, "model: kind mismatch"⟩ :
        Except ParseError (SRes × PSt))) = _
  rw [consume_of_rem .leftBrace _ hrem1 rfl (by intro hx; exact TokenType.noConfusion hx)]
  show ((match runSP (fuel + 2) .blockP { p with current := p.current + 1 + 1 } with
        | .error e => .error e
        | .ok (.many body, p3) => .ok (.one (.function_ name body params), p3)
        | .ok (.one _, _) => .error ⟨dummyToken, "model: kind mismatch"⟩ :
        Except ParseError (SRes × PSt))) = _
  have hblock : runSP (fuel + 2) .blockP { p with current := p.current + 1 + 1 }
      = .ok (.many [], { p with current := p.current + 1 + 1 + 1 }) := by
    rw [show runSP (fuel + 2) .blockP { p with current := p.current + 1 + 1 }
        = runSP (fuel + 1) (.blockLoop []) { p with current := p.current + 1 + 1 }
        from rfl]
    rw [show runSP (fuel + 1) (.blockLoop []) { p with current := p.current + 1 + 1 }
        = (if peekType { p with current := p.current + 1 + 1 } ≠ .eof
              ∧ peekType { p with current := p.current + 1 + 1 } ≠ .rightBrace then
            (match runSP fuel .declaration { p with current := p.current + 1 + 1 } with
             | .error e => .error e
             | .ok (.one stmt, p4) => runSP fuel (.blockLoop ([] ++ [stmt])) p4
             | .ok (.many _, _) => .error ⟨dummyToken, "model: kind mismatch"⟩)
          else
            match consume .rightBrace "expected `\x7d` after block"
                { p with current := p.current + 1 + 1 } with
            | .error e => .error e
            | .ok (_, p4) => .ok (.many [], p4))
        from rfl]
    rw [if_neg (by rw [peekType_of_rem hrem2]; intro hx; exact hx.2 rfl)]
    rw [consume_of_rem .rightBrace _ hrem2 rfl (by intro hx; exact TokenType.noConfusion hx)]
  rw [hblock]

/-- `Parser::function`'s parameter loop accepts up to 254 parameters:
with `k + 1` parameters remaining and at most 254 in total, it consumes
them all and proceeds to the close-paren. -/
theorem paramsLoop_success (k : Nat) :
    ∀ (fuel : Nat) (p : PSt) (name : String) (params : List String)
      (t : Token) (rest : List Token),
    rem p = reps k ++ identA :: t :: rest →
    t.type ≠ .comma →
    params.length + k + 1 ≤ 254 →
    runSP (fuel + k + 1) (.paramsLoop name params) p
      = runSP fuel (.functionBody name (params ++ List.replicate (k + 1) "a"))
          { p with current := p.current + (2 * k + 1) } := by
  induction k with
  | zero =>
    intro fuel p name params t rest hrem hne hle
    have hrem0 : rem p = identA :: t :: rest := hrem
    rw [paramsLoop_step (fuel + 0) name params (consumeIdentifier_of_rem _ hrem0 rfl)]
    rw [if_neg (by simp only [List.length_append, List.length_cons, List.length_nil]; omega)]
    have hrem1 : rem { p with current := p.current + 1 } = t :: rest := rem_bump hrem0
    rw [peekType_of_rem hrem1, if_neg hne]
    rfl
  | succ k ih =>
    intro fuel p name params t rest hrem hne hle
    rw [reps_succ] at hrem
    rw [show fuel + (k + 1) + 1 = (fuel + k + 1) + 1 from rfl,
      paramsLoop_step (fuel + k + 1) name params (consumeIdentifier_of_rem _ hrem rfl)]
    rw [if_neg (by simp only [List.length_append, List.length_cons, List.length_nil]; omega)]
    have hrem1 : rem { p with current := p.current + 1 }
        = commaTok :: (reps k ++ identA :: t :: rest) := rem_bump hrem
    rw [peekType_of_rem hrem1, if_pos (show commaTok.type = TokenType.comma from rfl)]
    rw [advanceP_of_rem hrem1 (by intro hx; exact TokenType.noConfusion hx)]
    have hrem2 : rem { p with current := p.current + 1 + 1 }
        = reps k ++ identA :: t :: rest :=
      rem_bump (p := { p with current := p.current + 1 }) hrem1
    rw [ih fuel _ name (params ++ ["a"]) t rest hrem2 hne
      (by simp only [List.length_append, List.length_cons, List.length_nil]; omega)]
    have hlist : params ++ ["a"] ++ List.replicate (k + 1) "a"
        = params ++ List.replicate (k + 1 + 1) "a" := by
      rw [List.append_assoc]
      rfl
    rw [hlist]
    congr 1
    simp
    omega

theorem parseLoop_eof {G : Nat} {acc : List Stmt} {p : PSt}
    (h : peekType p = .eof) :
    runSP (G + 1) (.parseLoop acc) p = .ok (.many acc, p) := by
  simp [runSP, h]

theorem drop_left_of_length {α : Type} {l1 l2 : List α} {m : Nat}
    (h : l1.length = m) : (l1 ++ l2).drop m = l2 := by
  subst h
  exact List.drop_left l1 l2

theorem funToks_parts (n : Nat) (h : 1 ≤ n) :
    funToks n = [funTok, identF, lparenTok] ++ reps (n - 1)
      ++ [identA] ++ [rparenTok, lbraceTok, rbraceTok, eofTok] := by
  show [funTok, identF, lparenTok]
      ++ (List.replicate (n - 1) [identA, commaTok]).flatten
      ++ (if n = 0 then [] else [identA])
      ++ [rparenTok, lbraceTok, rbraceTok, eofTok] = _
  rw [if_neg (by omega)]
  rfl

theorem funToks_length (n : Nat) (h : 1 ≤ n) : (funToks n).length = 2 * n + 6 := by
  rw [funToks_parts n h]
  simp [reps_length]
  omega

theorem funToks_head (n : Nat) (h : 1 ≤ n) :
    ∃ ts, funToks n = funTok :: identF :: lparenTok :: identA :: ts := by
  rw [funToks_parts n h]
  cases hk : n - 1 with
  | zero => exact ⟨[rparenTok, lbraceTok, rbraceTok, eofTok], rfl⟩
  | succ l =>
    refine ⟨commaTok :: (reps l ++ [identA] ++ [rparenTok, lbraceTok, rbraceTok, eofTok]), ?_⟩
    rw [reps_succ]
    simp

theorem funToks_drop3 (n : Nat) (h : 1 ≤ n) :
    (funToks n).drop 3 = reps (n - 1)
      ++ identA :: rparenTok :: [lbraceTok, rbraceTok, eofTok] := by
  rw [funToks_parts n h]
  rw [show [funTok, identF, lparenTok] ++ reps (n - 1) ++ [identA]
      ++ [rparenTok, lbraceTok, rbraceTok, eofTok]
      = [funTok, identF, lparenTok]
        ++ (reps (n - 1) ++ identA :: rparenTok :: [lbraceTok, rbraceTok, eofTok]) by simp]
  exact drop_left_of_length rfl

theorem funToks_drop_close (n : Nat) (h : 1 ≤ n) :
    (funToks n).drop (2 * n + 2) = [rparenTok, lbraceTok, rbraceTok, eofTok] := by
  rw [funToks_parts n h]
  rw [show [funTok, identF, lparenTok] ++ reps (n - 1) ++ [identA]
      ++ [rparenTok, lbraceTok, rbraceTok, eofTok]
      = ([funTok, identF, lparenTok] ++ reps (n - 1) ++ [identA])
        ++ [rparenTok, lbraceTok, rbraceTok, eofTok] by simp]
  refine drop_left_of_length ?_
  simp [reps_length]
  omega

/-- Unfolding `Parser::parse` through `declaration` and the head of
`Parser::function` on a `fun f(a, ...` token stream, down to the
parameter loop. -/
theorem parse_fun_entry (G : Nat) (n : Nat) (hn : 1 ≤ n) :
    runSP (G + 4) .parse ⟨funToks n, 0, 0⟩
      = (match runSP G (.paramsLoop "f" []) ⟨funToks n, 3, 0⟩ with
         | .error e => .error e
         | .ok (.one stmt, p1) => runSP (G + 2) (.parseLoop [stmt]) p1
         | .ok (.many _, _) => .error ⟨dummyToken, "model: kind mismatch"⟩) := by
  obtain ⟨ts, hts⟩ := funToks_head n hn
  rw [hts]
  simp [runSP, peekTok, peekType, advanceP, consumeIdentifier, consume,
    funTok, identF, lparenTok, identA]

/-- A function declaration with 255 or more parameters is rejected by the
parser with "can't have more than 255 parameters" (the error fires as the
255th parameter is pushed). -/
theorem funDecl_params_rejected (n : Nat) (hn : 255 ≤ n) :
    parseProgram (funToks n)
      = .error ⟨identA, "can't have more than 255 parameters"⟩ := by
  have hlen := funToks_length n (by omega)
  obtain ⟨F, hF⟩ : ∃ F, 8 * (funToks n).length + 64 = (F + (n - 1) + 1) + 4 :=
    ⟨8 * (funToks n).length + 64 - 4 - (n - 1) - 1, by omega⟩
  have hrem : rem ⟨funToks n, 3, 0⟩
      = reps (n - 1) ++ identA :: (rparenTok :: [lbraceTok, rbraceTok, eofTok]) :=
    funToks_drop3 n (by omega)
  unfold parseProgram
  rw [hF, parse_fun_entry (F + (n - 1) + 1) n (by omega)]
  rw [paramsLoop_error (n - 1) F ⟨funToks n, 3, 0⟩ "f" [] _ hrem
    (by simp) (by simp; omega)]

/-- A function declaration with at most 254 parameters parses
successfully, to the expected `Function` statement. -/
theorem funDecl_params_accepted (n : Nat) (h1 : 1 ≤ n) (h2 : n ≤ 254) :
    parseProgram (funToks n)
      = .ok [.function_ "f" [] (List.replicate n "a")] := by
  have hlen := funToks_length n h1
  obtain ⟨F, hF⟩ : ∃ F, 8 * (funToks n).length + 64 = (((F + 3) + (n - 1)) + 1) + 4 :=
    ⟨8 * (funToks n).length + 64 - 8 - (n - 1), by omega⟩
  have hrem : rem ⟨funToks n, 3, 0⟩
      = reps (n - 1) ++ identA :: rparenTok :: [lbraceTok, rbraceTok, eofTok] :=
    funToks_drop3 n h1
  unfold parseProgram
  rw [hF, parse_fun_entry ((F + 3) + (n - 1) + 1) n h1]
  rw [paramsLoop_success (n - 1) (F + 3) ⟨funToks n, 3, 0⟩ "f" [] rparenTok
    [lbraceTok, rbraceTok, eofTok] hrem
    (by intro hx; exact TokenType.noConfusion hx) (by simp; omega)]
  have hn1 : n - 1 + 1 = n := by omega
  rw [hn1]
  have harith : (⟨funToks n, 3, 0⟩ : PSt).current + (2 * (n - 1) + 1) = 2 * n + 2 := by
    show 3 + (2 * (n - 1) + 1) = 2 * n + 2
    omega
  rw [harith]
  have hremB : rem ⟨funToks n, 2 * n + 2, 0⟩
      = rparenTok :: lbraceTok :: rbraceTok :: [eofTok] := funToks_drop_close n h1
  rw [show ({ tokens := (⟨funToks n, 3, 0⟩ : PSt).tokens,
              current := 2 * n + 2,
              enclosingLoops := (⟨funToks n, 3, 0⟩ : PSt).enclosingLoops } : PSt)
      = ⟨funToks n, 2 * n + 2, 0⟩ from rfl]
  rw [List.nil_append]
  rw [functionBody_finish F "f" (List.replicate n "a") ⟨funToks n, 2 * n + 2, 0⟩
    [eofTok] hremB]
  have hremE : rem ⟨funToks n, 2 * n + 2 + 3, 0⟩ = [eofTok] := by
    show (funToks n).drop (2 * n + 2 + 3) = [eofTok]
    rw [funToks_parts n h1]
    rw [show [funTok, identF, lparenTok] ++ reps (n - 1) ++ [identA]
        ++ [rparenTok, lbraceTok, rbraceTok, eofTok]
        = ([funTok, identF, lparenTok] ++ reps (n - 1) ++ [identA]
          ++ [rparenTok, lbraceTok, rbraceTok]) ++ [eofTok] by simp]
    refine drop_left_of_length ?_
    simp [reps_length]
    omega
  show ((match runSP (F + 3 + (n - 1) + 1 + 2)
          (.parseLoop [.function_ "f" [] (List.replicate n "a")])
          ⟨funToks n, 2 * n + 2 + 3, 0⟩ with
        | .error e => .error e
        | .ok (.many stmts, _) => .ok stmts
        | .ok (.one _, _) => .error ⟨dummyToken, "model: kind mismatch"⟩ :
        Except ParseError (List Stmt)))
      = .ok [.function_ "f" [] (List.replicate n "a")]
  rw [show F + 3 + (n - 1) + 1 + 2 = (F + 3 + (n - 1) + 1 + 1) + 1 from rfl]
  rw [parseLoop_eof (peekType_of_rem hremE)]

/-- Parsing the lone-identifier expression `a` when the following token is
a comma or a close-paren: the whole precedence chain descends to
`primary`, produces `Variable("a")`, and every operator loop declines. -/
theorem expression_variable_a (g : Nat) (p : PSt) (t : Token) (ts : List Token)
    (hrem : rem p = identA :: t :: ts)
    (ht : t.type = .comma ∨ t.type = .rightParen) :
    runEP (g + 11) .expression p
      = .ok (.variable_ "a", { p with current := p.current + 1 }) := by
  have hadv : advanceP p = { p with current := p.current + 1 } :=
    advanceP_of_rem hrem (by intro hx; exact TokenType.noConfusion hx)
  have hb := peekType_of_rem (rem_bump hrem)
  rcases ht with h | h <;>
    simp [runEP, peekType_of_rem hrem, hadv, hb, h, identA]

/-- `Parser::finish_call`'s argument loop: exit on a close-paren. -/
theorem argsLoop_exit (fuel : Nat) (p : PSt) (callee : Expr) (args : List Expr)
    (t : Token) (rest : List Token)
    (hrem : rem p = t :: rest) (ht : t.type = .rightParen) :
    runEP (fuel + 1) (.argsLoop callee args) p
      = .ok (.call callee args, { p with current := p.current + 1 }) := by
  have hadv : advanceP p = { p with current := p.current + 1 } :=
    advanceP_of_rem hrem (by rw [ht]; intro hx; exact TokenType.noConfusion hx)
  simp [runEP, consume, peekType_of_rem hrem, ht, hadv]

/-- The argument loop consumes `, a` pairs while at most 255 arguments
have accumulated, finishing the call at the close-paren. -/
theorem argsLoop_success (k : Nat) :
    ∀ (fuel : Nat) (p : PSt) (callee : Expr) (args : List Expr)
      (t : Token) (rest : List Token),
    rem p = commaTok :: (reps k ++ identA :: t :: rest) →
    t.type = .rightParen →
    args.length + (k + 1) ≤ 255 →
    runEP (fuel + 12 + k) (.argsLoop callee args) p
      = .ok (.call callee (args ++ List.replicate (k + 1) (.variable_ "a")),
          { p with current := p.current + (2 * (k + 1) + 1) }) := by
  induction k with
  | zero =>
    intro fuel p callee args t rest hrem ht hlen
    have hadv : advanceP p = { p with current := p.current + 1 } :=
      advanceP_of_rem hrem (by intro hx; exact TokenType.noConfusion hx)
    have hrem1 : rem { p with current := p.current + 1 } = identA :: t :: rest :=
      rem_bump hrem
    rw [show fuel + 12 + 0 = (fuel + 11) + 1 from rfl]
    rw [show runEP ((fuel + 11) + 1) (.argsLoop callee args) p
        = (if peekType p = .comma then
            (let p1 := advanceP p
             if 255 ≤ args.length then
               .error ⟨peekTok p1, "can't have more than 255 arguments"⟩
             else
               match runEP (fuel + 11) .expression p1 with
               | .error e => .error e
               | .ok (next, p2) => runEP (fuel + 11) (.argsLoop callee (args ++ [next])) p2)
          else
            match consume .rightParen "expected `)` after arguments" p with
            | .error e => .error e
            | .ok (_, p1) => .ok (.call callee args, p1)) from rfl]
    rw [peekType_of_rem hrem, if_pos (show commaTok.type = TokenType.comma from rfl)]
    show (if 255 ≤ args.length then _ else _) = _
    rw [if_neg (by omega), hadv]
    rw [expression_variable_a fuel { p with current := p.current + 1 } t rest hrem1
      (Or.inr ht)]
    have hrem2 : rem { p with current := p.current + 1 + 1 } = t :: rest :=
      rem_bump (p := { p with current := p.current + 1 }) hrem1
    show runEP (fuel + 11) (.argsLoop callee (args ++ [Expr.variable_ "a"]))
      { p with current := p.current + 1 + 1 } = _
    rw [show fuel + 11 = (fuel + 10) + 1 from rfl]
    rw [argsLoop_exit (fuel + 10) _ callee (args ++ [Expr.variable_ "a"]) t rest hrem2 ht]
    rfl
  | succ k ih =>
    intro fuel p callee args t rest hrem ht hlen
    rw [reps_succ] at hrem
    have hadv : advanceP p = { p with current := p.current + 1 } :=
      advanceP_of_rem hrem (by intro hx; exact TokenType.noConfusion hx)
    have hrem1 : rem { p with current := p.current + 1 }
        = identA :: commaTok :: (reps k ++ identA :: t :: rest) := rem_bump hrem
    rw [show fuel + 12 + (k + 1) = (fuel + 12 + k) + 1 from rfl]
    rw [show runEP ((fuel + 12 + k) + 1) (.argsLoop callee args) p
        = (if peekType p = .comma then
            (let p1 := advanceP p
             if 255 ≤ args.length then
               .error ⟨peekTok p1, "can't have more than 255 arguments"⟩
             else
               match runEP (fuel + 12 + k) .expression p1 with
               | .error e => .error e
               | .ok (next, p2) => runEP (fuel + 12 + k) (.argsLoop callee (args ++ [next])) p2)
          else
            match consume .rightParen "expected `)` after arguments" p with
            | .error e => .error e
            | .ok (_, p1) => .ok (.call callee args, p1)) from rfl]
    rw [peekType_of_rem hrem, if_pos (show commaTok.type = TokenType.comma from rfl)]
    show (if 255 ≤ args.length then _ else _) = _
    rw [if_neg (by omega), hadv]
    rw [show fuel + 12 + k = (fuel + k + 1) + 11 from (by omega)]
    rw [expression_variable_a (fuel + k + 1) { p with current := p.current + 1 }
      commaTok (reps k ++ identA :: t :: rest) hrem1 (Or.inl rfl)]
    have hrem2 : rem { p with current := p.current + 1 + 1 }
        = commaTok :: (reps k ++ identA :: t :: rest) :=
      rem_bump (p := { p with current := p.current + 1 }) hrem1
    show runEP ((fuel + k + 1) + 11) (.argsLoop callee (args ++ [Expr.variable_ "a"]))
      { p with current := p.current + 1 + 1 } = _
    rw [show (fuel + k + 1) + 11 = fuel + 12 + k from (by omega)]
    have hlen2 : (args ++ [Expr.variable_ "a"]).length + (k + 1) ≤ 255 := by
      simp only [List.length_append, List.length_cons, List.length_nil]
      omega
    rw [ih fuel _ callee (args ++ [Expr.variable_ "a"]) t rest hrem2 ht hlen2]
    have hlist : args ++ [Expr.variable_ "a"]
        ++ List.replicate (k + 1) (Expr.variable_ "a")
        = args ++ List.replicate (k + 1 + 1) (Expr.variable_ "a") := by
      rw [List.append_assoc]
      rfl
    rw [hlist]
    congr 1
    simp
    omega

/-- The argument loop fails with "can't have more than 255 arguments" at
the comma that would introduce the 256th argument. -/
theorem argsLoop_error (k : Nat) :
    ∀ (fuel : Nat) (p : PSt) (callee : Expr) (args : List Expr)
      (t : Token) (rest : List Token),
    rem p = commaTok :: (reps k ++ identA :: t :: rest) →
    t.type = .rightParen →
    args.length ≤ 255 → 256 ≤ args.length + (k + 1) →
    runEP (fuel + 12 + k) (.argsLoop callee args) p
      = .error ⟨identA, "can't have more than 255 arguments"⟩ := by
  induction k with
  | zero =>
    intro fuel p callee args t rest hrem ht hub hcount
    have hadv : advanceP p = { p with current := p.current + 1 } :=
      advanceP_of_rem hrem (by intro hx; exact TokenType.noConfusion hx)
    have hrem1 : rem { p with current := p.current + 1 } = identA :: t :: rest :=
      rem_bump hrem
    rw [show fuel + 12 + 0 = (fuel + 11) + 1 from rfl]
    rw [show runEP ((fuel + 11) + 1) (.argsLoop callee args) p
        = (if peekType p = .comma then
            (let p1 := advanceP p
             if 255 ≤ args.length then
               .error ⟨peekTok p1, "can't have more than 255 arguments"⟩
             else
               match runEP (fuel + 11) .expression p1 with
               | .error e => .error e
               | .ok (next, p2) => runEP (fuel + 11) (.argsLoop callee (args ++ [next])) p2)
          else
            match consume .rightParen "expected `)` after arguments" p with
            | .error e => .error e
            | .ok (_, p1) => .ok (.call callee args, p1)) from rfl]
    rw [peekType_of_rem hrem, if_pos (show commaTok.type = TokenType.comma from rfl)]
    show (if 255 ≤ args.length then _ else _) = _
    rw [if_pos (by omega), hadv, peekTok_of_rem hrem1]
  | succ k ih =>
    intro fuel p callee args t rest hrem ht hub hcount
    rw [reps_succ] at hrem
    have hadv : advanceP p = { p with current := p.current + 1 } :=
      advanceP_of_rem hrem (by intro hx; exact TokenType.noConfusion hx)
    have hrem1 : rem { p with current := p.current + 1 }
        = identA :: commaTok :: (reps k ++ identA :: t :: rest) := rem_bump hrem
    rw [show fuel + 12 + (k + 1) = (fuel + 12 + k) + 1 from rfl]
    rw [show runEP ((fuel + 12 + k) + 1) (.argsLoop callee args) p
        = (if peekType p = .comma then
            (let p1 := advanceP p
             if 255 ≤ args.length then
               .error ⟨peekTok p1, "can't have more than 255 arguments"⟩
             else
               match runEP (fuel + 12 + k) .expression p1 with
               | .error e => .error e
               | .ok (next, p2) => runEP (fuel + 12 + k) (.argsLoop callee (args ++ [next])) p2)
          else
            match consume .rightParen "expected `)` after arguments" p with
            | .error e => .error e
            | .ok (_, p1) => .ok (.call callee args, p1)) from rfl]
    rw [peekType_of_rem hrem, if_pos (show commaTok.type = TokenType.comma from rfl)]
    show (if 255 ≤ args.length then _ else _) = _
    by_cases h255 : 255 ≤ args.length
    · rw [if_pos h255, hadv, peekTok_of_rem hrem1]
    · rw [if_neg h255, hadv]
      rw [show fuel + 12 + k = (fuel + k + 1) + 11 from (by omega)]
      rw [expression_variable_a (fuel + k + 1) { p with current := p.current + 1 }
        commaTok (reps k ++ identA :: t :: rest) hrem1 (Or.inl rfl)]
      have hrem2 : rem { p with current := p.current + 1 + 1 }
          = commaTok :: (reps k ++ identA :: t :: rest) :=
        rem_bump (p := { p with current := p.current + 1 }) hrem1
      show runEP ((fuel + k + 1) + 11) (.argsLoop callee (args ++ [Expr.variable_ "a"]))
        { p with current := p.current + 1 + 1 } = _
      rw [show (fuel + k + 1) + 11 = fuel + 12 + k from (by omega)]
      have hub2 : (args ++ [Expr.variable_ "a"]).length ≤ 255 := by
        simp only [List.length_append, List.length_cons, List.length_nil]
        omega
      have hcount2 : 256 ≤ (args ++ [Expr.variable_ "a"]).length + (k + 1) := by
        simp only [List.length_append, List.length_cons, List.length_nil]
        omega
      exact ih fuel _ callee (args ++ [Expr.variable_ "a"]) t rest hrem2 ht hub2 hcount2

theorem callToks_parts (n : Nat) (h : 1 ≤ n) :
    callToks n = identF :: lparenTok ::
      (reps (n - 1) ++ identA :: rparenTok :: [semiTok, eofTok]) := by
  show [identF, lparenTok]
      ++ (List.replicate (n - 1) [identA, commaTok]).flatten
      ++ (if n = 0 then [] else [identA])
      ++ [rparenTok, semiTok, eofTok] = _
  rw [if_neg (by omega)]
  show [identF, lparenTok] ++ reps (n - 1) ++ [identA]
      ++ [rparenTok, semiTok, eofTok] = _
  simp

theorem callToks_length (n : Nat) (h : 1 ≤ n) : (callToks n).length = 2 * n + 4 := by
  rw [callToks_parts n h]
  simp [reps_length]
  omega

theorem callToks_head (n : Nat) (h : 1 ≤ n) :
    ∃ ts, callToks n = identF :: lparenTok :: identA :: ts := by
  rw [callToks_parts n h]
  cases hk : n - 1 with
  | zero => exact ⟨rparenTok :: [semiTok, eofTok], rfl⟩
  | succ l =>
    refine ⟨commaTok :: (reps l ++ identA :: rparenTok :: [semiTok, eofTok]), ?_⟩
    rw [reps_succ]
    simp

theorem callToks_drop2 (n : Nat) (h : 1 ≤ n) :
    (callToks n).drop 2 = reps (n - 1) ++ identA :: rparenTok :: [semiTok, eofTok] := by
  rw [callToks_parts n h]
  rfl

theorem callToks_drop_semi (n : Nat) (h : 1 ≤ n) :
    (callToks n).drop (2 * n + 2) = [semiTok, eofTok] := by
  rw [callToks_parts n h]
  rw [show identF :: lparenTok :: (reps (n - 1) ++ identA :: rparenTok :: [semiTok, eofTok])
      = (identF :: lparenTok :: (reps (n - 1) ++ [identA, rparenTok])) ++ [semiTok, eofTok]
      by simp]
  refine drop_left_of_length ?_
  simp [reps_length]
  omega

theorem callToks_drop_eof (n : Nat) (h : 1 ≤ n) :
    (callToks n).drop (2 * n + 3) = [eofTok] := by
  rw [callToks_parts n h]
  rw [show identF :: lparenTok :: (reps (n - 1) ++ identA :: rparenTok :: [semiTok, eofTok])
      = (identF :: lparenTok :: (reps (n - 1) ++ [identA, rparenTok, semiTok])) ++ [eofTok]
      by simp]
  refine drop_left_of_length ?_
  simp [reps_length]
  omega

/-- `Parser::finish_call` on an argument list `a, a, ..., a)` of `n ≤ 255`
arguments: the call node carries `n` `Variable("a")` arguments and `2n`
tokens are consumed (arguments, commas and the close-paren). -/
theorem finishCall_success (n : Nat) (hn1 : 1 ≤ n) (hn : n ≤ 255)
    (fuel : Nat) (p : PSt) (callee : Expr) (t : Token) (rest : List Token)
    (hrem : rem p = reps (n - 1) ++ identA :: t :: rest)
    (ht : t.type = .rightParen) :
    runEP (fuel + n + 12) (.finishCall callee) p
      = .ok (.call callee (List.replicate n (.variable_ "a")),
          { p with current := p.current + 2 * n }) := by
  obtain ⟨m, rfl⟩ : ∃ m, n = m + 1 := ⟨n - 1, by omega⟩
  cases m with
  | zero =>
    have hrem1 : rem p = identA :: t :: rest := by simpa [reps] using hrem
    have hne : peekType p ≠ TokenType.rightParen := by
      rw [peekType_of_rem hrem1]
      intro hx
      exact TokenType.noConfusion hx
    rw [show fuel + (0 + 1) + 12 = (fuel + 12) + 1 from rfl]
    rw [show runEP ((fuel + 12) + 1) (.finishCall callee) p
        = (if peekType p ≠ TokenType.rightParen then
            (match runEP (fuel + 12) .expression p with
             | .error e => .error e
             | .ok (first, p1) => runEP (fuel + 12) (.argsLoop callee [first]) p1)
          else
            match consume .rightParen "expected `)` after arguments" p with
            | .error e => .error e
            | .ok (_, p1) => .ok (.call callee [], p1)) from rfl]
    rw [if_pos hne]
    rw [show fuel + 12 = (fuel + 1) + 11 from rfl]
    rw [expression_variable_a (fuel + 1) p t rest hrem1 (Or.inr ht)]
    show runEP ((fuel + 1) + 11) (.argsLoop callee [Expr.variable_ "a"])
      { p with current := p.current + 1 } = _
    rw [show (fuel + 1) + 11 = (fuel + 11) + 1 from rfl]
    rw [argsLoop_exit (fuel + 11) _ callee [Expr.variable_ "a"] t rest
      (rem_bump hrem1) ht]
    rfl
  | succ k =>
    have hrem1 : rem p = identA :: commaTok :: (reps k ++ identA :: t :: rest) := by
      rw [show k + 1 + 1 - 1 = k + 1 from rfl, reps_succ] at hrem
      simpa using hrem
    have hne : peekType p ≠ TokenType.rightParen := by
      rw [peekType_of_rem hrem1]
      intro hx
      exact TokenType.noConfusion hx
    rw [show fuel + (k + 1 + 1) + 12 = (fuel + k + 13) + 1 from (by omega)]
    rw [show runEP ((fuel + k + 13) + 1) (.finishCall callee) p
        = (if peekType p ≠ TokenType.rightParen then
            (match runEP (fuel + k + 13) .expression p with
             | .error e => .error e
             | .ok (first, p1) => runEP (fuel + k + 13) (.argsLoop callee [first]) p1)
          else
            match consume .rightParen "expected `)` after arguments" p with
            | .error e => .error e
            | .ok (_, p1) => .ok (.call callee [], p1)) from rfl]
    rw [if_pos hne]
    rw [show fuel + k + 13 = (fuel + k + 2) + 11 from (by omega)]
    rw [expression_variable_a (fuel + k + 2) p commaTok (reps k ++ identA :: t :: rest)
      hrem1 (Or.inl rfl)]
    show runEP ((fuel + k + 2) + 11) (.argsLoop callee [Expr.variable_ "a"])
      { p with current := p.current + 1 } = _
    rw [show (fuel + k + 2) + 11 = (fuel + 1) + 12 + k from (by omega)]
    rw [argsLoop_success k (fuel + 1) _ callee [Expr.variable_ "a"] t rest
      (rem_bump hrem1) ht (by simp; omega)]
    congr 1
    simp [List.replicate_succ]
    omega

/-- `Parser::finish_call` on an argument list of 256 or more arguments:
the error fires at the comma that would introduce the 256th argument. -/
theorem finishCall_error (n : Nat) (hn : 256 ≤ n)
    (fuel : Nat) (p : PSt) (callee : Expr) (t : Token) (rest : List Token)
    (hrem : rem p = reps (n - 1) ++ identA :: t :: rest)
    (ht : t.type = .rightParen) :
    runEP (fuel + n + 12) (.finishCall callee) p
      = .error ⟨identA, "can't have more than 255 arguments"⟩ := by
  obtain ⟨k, rfl⟩ : ∃ k, n = k + 2 := ⟨n - 2, by omega⟩
  have hrem1 : rem p = identA :: commaTok :: (reps k ++ identA :: t :: rest) := by
    rw [show k + 2 - 1 = k + 1 from rfl, reps_succ] at hrem
    simpa using hrem
  have hne : peekType p ≠ TokenType.rightParen := by
    rw [peekType_of_rem hrem1]
    intro hx
    exact TokenType.noConfusion hx
  rw [show fuel + (k + 2) + 12 = (fuel + k + 13) + 1 from (by omega)]
  rw [show runEP ((fuel + k + 13) + 1) (.finishCall callee) p
      = (if peekType p ≠ TokenType.rightParen then
          (match runEP (fuel + k + 13) .expression p with
           | .error e => .error e
           | .ok (first, p1) => runEP (fuel + k + 13) (.argsLoop callee [first]) p1)
        else
          match consume .rightParen "expected `)` after arguments" p with
          | .error e => .error e
          | .ok (_, p1) => .ok (.call callee [], p1)) from rfl]
  rw [if_pos hne]
  rw [show fuel + k + 13 = (fuel + k + 2) + 11 from (by omega)]
  rw [expression_variable_a (fuel + k + 2) p commaTok (reps k ++ identA :: t :: rest)
    hrem1 (Or.inl rfl)]
  show runEP ((fuel + k + 2) + 11) (.argsLoop callee [Expr.variable_ "a"])
    { p with current := p.current + 1 } = _
  rw [show (fuel + k + 2) + 11 = (fuel + 1) + 12 + k from (by omega)]
  exact argsLoop_error k (fuel + 1) _ callee [Expr.variable_ "a"] t rest
    (rem_bump hrem1) ht (by simp) (by simp; omega)

/-- `Parser::primary` on an `f` identifier token. -/
theorem primary_identF (g : Nat) (p : PSt) (ts : List Token)
    (hrem : rem p = identF :: ts) :
    runEP (g + 1) .primary p = .ok (.variable_ "f", advanceP p) := by
  simp [runEP, peekType_of_rem hrem, identF]

/-- `Parser::call` on `f(...`: `primary` yields `Variable("f")`, the
open paren hands over to `finish_call`. -/
theorem callP_call (g : Nat) (p : PSt) (ts : List Token) (r : Except ParseError (Expr × PSt))
    (hrem : rem p = identF :: lparenTok :: ts)
    (hfc : runEP (g + 1) (.finishCall (.variable_ "f"))
        { p with current := p.current + 1 + 1 } = r) :
    runEP (g + 2) .callP p = r := by
  have hadv : advanceP p = { p with current := p.current + 1 } :=
    advanceP_of_rem hrem (by intro hx; exact TokenType.noConfusion hx)
  have hrem1 : rem { p with current := p.current + 1 } = lparenTok :: ts :=
    rem_bump hrem
  have hadv1 : advanceP { p with current := p.current + 1 }
      = { p with current := p.current + 1 + 1 } :=
    advanceP_of_rem hrem1 (by intro hx; exact TokenType.noConfusion hx)
  rw [show runEP (g + 2) .callP p
      = (match runEP (g + 1) .primary p with
         | .error e => .error e
         | .ok (callee, p1) =>
           if peekType p1 = .leftParen then
             runEP (g + 1) (.finishCall callee) (advanceP p1)
           else .ok (callee, p1)) from rfl]
  rw [primary_identF g p _ hrem, hadv]
  show (if peekType { p with current := p.current + 1 } = .leftParen then
      runEP (g + 1) (.finishCall (.variable_ "f"))
        (advanceP { p with current := p.current + 1 })
    else .ok (.variable_ "f", { p with current := p.current + 1 })) = r
  rw [if_pos (by rw [peekType_of_rem hrem1]; rfl), hadv1, hfc]

/-- Parsing an expression that begins `f(`: the precedence chain descends
to `call`, `primary` yields `Variable("f")`, `finish_call` takes over; if
the token after the call is a semicolon, every operator loop declines and
the call expression is the result. -/
theorem expr_call_entry (g : Nat) (p : PSt) (ts : List Token) (e : Expr) (q : PSt)
    (hrem : rem p = identF :: lparenTok :: ts)
    (hfc : runEP (g + 1) (.finishCall (.variable_ "f"))
        { p with current := p.current + 1 + 1 } = .ok (e, q))
    (hq : peekType q = .semicolon) :
    runEP (g + 11) .expression p = .ok (e, q) := by
  have hpeek : peekType p = .identifier "f" := by rw [peekType_of_rem hrem]; rfl
  have h2 : runEP (g + 2) .callP p = .ok (e, q) := callP_call g p ts _ hrem hfc
  have h3 : runEP (g + 3) .unaryP p = .ok (e, q) := by
    rw [show runEP (g + 3) .unaryP p
        = (if peekType p = .minus ∨ peekType p = .bang then
            (let p1 := advanceP p
             let op := previousTok p1
             match runEP (g + 2) .unaryP p1 with
             | .error err => .error err
             | .ok (right, p2) => .ok (.unary op right, p2))
          else runEP (g + 2) .callP p) from rfl]
    rw [if_neg (by rw [hpeek]; rintro (hx | hx) <;> exact TokenType.noConfusion hx), h2]
  have h4 : runEP (g + 4) .factor p = .ok (e, q) := by
    rw [show runEP (g + 4) .factor p
        = (match runEP (g + 3) .unaryP p with
           | .error err => .error err
           | .ok (expr, p1) => runEP (g + 3) (.factorLoop expr) p1) from rfl, h3]
    show runEP (g + 3) (.factorLoop e) q = _
    simp [runEP, hq]
  have h5 : runEP (g + 5) .term p = .ok (e, q) := by
    rw [show runEP (g + 5) .term p
        = (match runEP (g + 4) .factor p with
           | .error err => .error err
           | .ok (expr, p1) => runEP (g + 4) (.termLoop expr) p1) from rfl, h4]
    show runEP (g + 4) (.termLoop e) q = _
    simp [runEP, hq]
  have h6 : runEP (g + 6) .comparison p = .ok (e, q) := by
    rw [show runEP (g + 6) .comparison p
        = (match runEP (g + 5) .term p with
           | .error err => .error err
           | .ok (expr, p1) => runEP (g + 5) (.comparisonLoop expr) p1) from rfl, h5]
    show runEP (g + 5) (.comparisonLoop e) q = _
    simp [runEP, hq]
  have h7 : runEP (g + 7) .equality p = .ok (e, q) := by
    rw [show runEP (g + 7) .equality p
        = (match runEP (g + 6) .comparison p with
           | .error err => .error err
           | .ok (expr, p1) => runEP (g + 6) (.equalityLoop expr) p1) from rfl, h6]
    show runEP (g + 6) (.equalityLoop e) q = _
    simp [runEP, hq]
  have h8 : runEP (g + 8) .land p = .ok (e, q) := by
    rw [show runEP (g + 8) .land p
        = (match runEP (g + 7) .equality p with
           | .error err => .error err
           | .ok (expr, p1) => runEP (g + 7) (.landLoop expr) p1) from rfl, h7]
    show runEP (g + 7) (.landLoop e) q = _
    simp [runEP, hq]
  have h9 : runEP (g + 9) .lor p = .ok (e, q) := by
    rw [show runEP (g + 9) .lor p
        = (match runEP (g + 8) .land p with
           | .error err => .error err
           | .ok (expr, p1) => runEP (g + 8) (.lorLoop expr) p1) from rfl, h8]
    show runEP (g + 8) (.lorLoop e) q = _
    simp [runEP, hq]
  have h10 : runEP (g + 10) .assignment p = .ok (e, q) := by
    rw [show runEP (g + 10) .assignment p
        = (match runEP (g + 9) .lor p with
           | .error err => .error err
           | .ok (expr, p1) =>
             if peekType p1 = .equal then
               match expr with
               | .variable_ name =>
                 (match runEP (g + 9) .assignment (advanceP p1) with
                  | .error err => .error err
                  | .ok (value, p2) => .ok (.assign name value, p2))
               | _ => .error ⟨peekTok p1, "invalid assignment target"⟩
             else .ok (expr, p1)) from rfl, h9]
    show (if peekType q = .equal then _ else _) = _
    rw [if_neg (by rw [hq]; intro hx; exact TokenType.noConfusion hx)]
  rw [show runEP (g + 11) .expression p = runEP (g + 10) .assignment p from rfl, h10]

/-- The error analogue: a `finish_call` failure propagates out of the
whole precedence chain. -/
theorem expr_call_entry_err (g : Nat) (p : PSt) (ts : List Token) (err : ParseError)
    (hrem : rem p = identF :: lparenTok :: ts)
    (hfc : runEP (g + 1) (.finishCall (.variable_ "f"))
        { p with current := p.current + 1 + 1 } = .error err) :
    runEP (g + 11) .expression p = .error err := by
  have hpeek : peekType p = .identifier "f" := by rw [peekType_of_rem hrem]; rfl
  have h2 : runEP (g + 2) .callP p = .error err := callP_call g p ts _ hrem hfc
  have h3 : runEP (g + 3) .unaryP p = .error err := by
    rw [show runEP (g + 3) .unaryP p
        = (if peekType p = .minus ∨ peekType p = .bang then
            (let p1 := advanceP p
             let op := previousTok p1
             match runEP (g + 2) .unaryP p1 with
             | .error e2 => .error e2
             | .ok (right, p2) => .ok (.unary op right, p2))
          else runEP (g + 2) .callP p) from rfl]
    rw [if_neg (by rw [hpeek]; rintro (hx | hx) <;> exact TokenType.noConfusion hx), h2]
  have h4 : runEP (g + 4) .factor p = .error err := by
    rw [show runEP (g + 4) .factor p
        = (match runEP (g + 3) .unaryP p with
           | .error e2 => .error e2
           | .ok (expr, p1) => runEP (g + 3) (.factorLoop expr) p1) from rfl, h3]
  have h5 : runEP (g + 5) .term p = .error err := by
    rw [show runEP (g + 5) .term p
        = (match runEP (g + 4) .factor p with
           | .error e2 => .error e2
           | .ok (expr, p1) => runEP (g + 4) (.termLoop expr) p1) from rfl, h4]
  have h6 : runEP (g + 6) .comparison p = .error err := by
    rw [show runEP (g + 6) .comparison p
        = (match runEP (g + 5) .term p with
           | .error e2 => .error e2
           | .ok (expr, p1) => runEP (g + 5) (.comparisonLoop expr) p1) from rfl, h5]
  have h7 : runEP (g + 7) .equality p = .error err := by
    rw [show runEP (g + 7) .equality p
        = (match runEP (g + 6) .comparison p with
           | .error e2 => .error e2
           | .ok (expr, p1) => runEP (g + 6) (.equalityLoop expr) p1) from rfl, h6]
  have h8 : runEP (g + 8) .land p = .error err := by
    rw [show runEP (g + 8) .land p
        = (match runEP (g + 7) .equality p with
           | .error e2 => .error e2
           | .ok (expr, p1) => runEP (g + 7) (.landLoop expr) p1) from rfl, h7]
  have h9 : runEP (g + 9) .lor p = .error err := by
    rw [show runEP (g + 9) .lor p
        = (match runEP (g + 8) .land p with
           | .error e2 => .error e2
           | .ok (expr, p1) => runEP (g + 8) (.lorLoop expr) p1) from rfl, h8]
  have h10 : runEP (g + 10) .assignment p = .error err := by
    rw [show runEP (g + 10) .assignment p
        = (match runEP (g + 9) .lor p with
           | .error e2 => .error e2
           | .ok (expr, p1) =>
             if peekType p1 = .equal then
               match expr with
               | .variable_ name =>
                 (match runEP (g + 9) .assignment (advanceP p1) with
                  | .error e2 => .error e2
                  | .ok (value, p2) => .ok (.assign name value, p2))
               | _ => .error ⟨peekTok p1, "invalid assignment target"⟩
             else .ok (expr, p1)) from rfl, h9]
  rw [show runEP (g + 11) .expression p = runEP (g + 10) .assignment p from rfl, h10]

/-- Unfolding `Parser::parse` through `declaration` and `statement` on a
token stream beginning `f(a`: the program is a single expression
statement. -/
theorem parse_call_entry (G : Nat) (n : Nat) (hn : 1 ≤ n) :
    runSP (G + 4) .parse ⟨callToks n, 0, 0⟩
      = (match exprStatement G ⟨callToks n, 0, 0⟩ with
         | .error e => .error e
         | .ok (stmt, p1) => runSP (G + 2) (.parseLoop [stmt]) p1) := by
  obtain ⟨ts, hts⟩ := callToks_head n hn
  have hrem0 : rem ⟨callToks n, 0, 0⟩ = identF :: lparenTok :: identA :: ts := by
    show (callToks n).drop 0 = _
    rw [List.drop_zero, hts]
  have hpeek : peekType ⟨callToks n, 0, 0⟩ = .identifier "f" := by
    rw [peekType_of_rem hrem0]
    rfl
  rw [show runSP (G + 4) .parse ⟨callToks n, 0, 0⟩
      = runSP (G + 3) (.parseLoop []) ⟨callToks n, 0, 0⟩ from rfl]
  rw [show runSP (G + 3) (.parseLoop []) ⟨callToks n, 0, 0⟩
      = (if peekType ⟨callToks n, 0, 0⟩ = .eof then .ok (.many [], ⟨callToks n, 0, 0⟩)
         else
           match runSP (G + 2) .declaration ⟨callToks n, 0, 0⟩ with
           | .error e => .error e
           | .ok (.one stmt, p1) => runSP (G + 2) (.parseLoop ([] ++ [stmt])) p1
           | .ok (.many _, _) => .error ⟨dummyToken, "model: kind mismatch"⟩) from rfl]
  rw [if_neg (by rw [hpeek]; intro hx; exact TokenType.noConfusion hx)]
  rw [show runSP (G + 2) .declaration ⟨callToks n, 0, 0⟩
      = (match peekType ⟨callToks n, 0, 0⟩ with
         | .var_ => (varDeclaration (G + 1) (advanceP ⟨callToks n, 0, 0⟩)).map
             (fun r => (.one r.1, r.2))
         | .fun_ => runSP (G + 1) .functionDecl (advanceP ⟨callToks n, 0, 0⟩)
         | _ => runSP (G + 1) .statement ⟨callToks n, 0, 0⟩) from rfl]
  rw [hpeek]
  rw [show runSP (G + 1) .statement ⟨callToks n, 0, 0⟩
      = (match peekType ⟨callToks n, 0, 0⟩ with
         | .print => (printStatement G (advanceP ⟨callToks n, 0, 0⟩)).map
             (fun r => (.one r.1, r.2))
         | .leftBrace =>
           (match runSP G .blockP (advanceP ⟨callToks n, 0, 0⟩) with
            | .error e => .error e
            | .ok (.many stmts, p1) => .ok (.one (.block stmts), p1)
            | .ok (.one _, _) => .error ⟨dummyToken, "model: kind mismatch"⟩)
         | .if_ => runSP G .ifStatement (advanceP ⟨callToks n, 0, 0⟩)
         | .while_ =>
           (match runSP G .whileStatement
               (advanceP { (⟨callToks n, 0, 0⟩ : PSt) with
                 enclosingLoops := (⟨callToks n, 0, 0⟩ : PSt).enclosingLoops + 1 }) with
            | .error e => .error e
            | .ok (r, p1) => .ok (r, { p1 with enclosingLoops := p1.enclosingLoops - 1 }))
         | .for_ =>
           (match runSP G .forStatement
               (advanceP { (⟨callToks n, 0, 0⟩ : PSt) with
                 enclosingLoops := (⟨callToks n, 0, 0⟩ : PSt).enclosingLoops + 1 }) with
            | .error e => .error e
            | .ok (r, p1) => .ok (r, { p1 with enclosingLoops := p1.enclosingLoops - 1 }))
         | .break_ =>
           if (⟨callToks n, 0, 0⟩ : PSt).enclosingLoops = 0 then
             .error ⟨peekTok ⟨callToks n, 0, 0⟩, "`break` outside loop"⟩
           else
             (match consume .semicolon "expected `;` after `break`"
                 (advanceP ⟨callToks n, 0, 0⟩) with
              | .error e => .error e
              | .ok (_, p1) => .ok (.one .break_, p1))
         | .continue_ =>
           if (⟨callToks n, 0, 0⟩ : PSt).enclosingLoops = 0 then
             .error ⟨peekTok ⟨callToks n, 0, 0⟩, "`continue` not properly in loop"⟩
           else
             (match consume .semicolon "expected `;` after `continue`"
                 (advanceP ⟨callToks n, 0, 0⟩) with
              | .error e => .error e
              | .ok (_, p1) => .ok (.one .continue_, p1))
         | _ => (exprStatement G ⟨callToks n, 0, 0⟩).map (fun r => (.one r.1, r.2))) from rfl]
  rw [hpeek]
  show ((match (exprStatement G ⟨callToks n, 0, 0⟩).map (fun r => (SRes.one r.1, r.2)) with
        | .error e => .error e
        | .ok (.one stmt, p1) => runSP (G + 2) (.parseLoop ([] ++ [stmt])) p1
        | .ok (.many _, _) => .error ⟨dummyToken, "model: kind mismatch"⟩ :
        Except ParseError (SRes × PSt)))
      = _
  cases exprStatement G ⟨callToks n, 0, 0⟩ with
  | error e => rfl
  | ok r =>
    obtain ⟨stmt, p1⟩ := r
    rfl

/-- A call statement with between 1 and 255 arguments parses successfully
to the expected `Call` expression statement. -/
theorem call_args_accepted (n : Nat) (h1 : 1 ≤ n) (h2 : n ≤ 255) :
    parseProgram (callToks n)
      = .ok [.expr (.call (.variable_ "f") (List.replicate n (.variable_ "a")))] := by
  have hlen := callToks_length n h1
  obtain ⟨F, hF⟩ : ∃ F, 8 * (callToks n).length + 64 = ((F + n + 11) + 11) + 4 :=
    ⟨8 * (callToks n).length + 64 - n - 26, by omega⟩
  have hremP : rem ⟨callToks n, 0, 0⟩
      = identF :: lparenTok :: (reps (n - 1) ++ identA :: rparenTok :: [semiTok, eofTok]) := by
    show (callToks n).drop 0 = _
    rw [List.drop_zero, callToks_parts n h1]
  have hrem2 : rem ⟨callToks n, 2, 0⟩
      = reps (n - 1) ++ identA :: rparenTok :: [semiTok, eofTok] := callToks_drop2 n h1
  have hfc : runEP ((F + n + 11) + 1) (.finishCall (.variable_ "f")) ⟨callToks n, 2, 0⟩
      = .ok (.call (.variable_ "f") (List.replicate n (.variable_ "a")),
          ⟨callToks n, 2 + 2 * n, 0⟩) :=
    finishCall_success n h1 h2 F ⟨callToks n, 2, 0⟩ (.variable_ "f") rparenTok
      [semiTok, eofTok] hrem2 rfl
  have hremQ : rem ⟨callToks n, 2 + 2 * n, 0⟩ = [semiTok, eofTok] := by
    show (callToks n).drop (2 + 2 * n) = _
    rw [show 2 + 2 * n = 2 * n + 2 from (by omega)]
    exact callToks_drop_semi n h1
  have hq : peekType ⟨callToks n, 2 + 2 * n, 0⟩ = .semicolon := by
    rw [peekType_of_rem hremQ]
    rfl
  have hes : exprStatement ((F + n + 11) + 11) ⟨callToks n, 0, 0⟩
      = .ok (.expr (.call (.variable_ "f") (List.replicate n (.variable_ "a"))),
          ⟨callToks n, 2 + 2 * n + 1, 0⟩) := by
    rw [show exprStatement ((F + n + 11) + 11) ⟨callToks n, 0, 0⟩
        = (match runEP ((F + n + 11) + 11) .expression ⟨callToks n, 0, 0⟩ with
           | .error e => .error e
           | .ok (expr, p1) =>
             (match consume .semicolon "expected `;` after expression" p1 with
              | .error e => .error e
              | .ok (_, p2) => .ok (.expr expr, p2))) from rfl]
    rw [expr_call_entry (F + n + 11) ⟨callToks n, 0, 0⟩ _
      (.call (.variable_ "f") (List.replicate n (.variable_ "a")))
      ⟨callToks n, 2 + 2 * n, 0⟩ hremP hfc hq]
    show ((match consume TokenType.semicolon "expected `;` after expression"
          (⟨callToks n, 2 + 2 * n, 0⟩ : PSt) with
        | .error e => .error e
        | .ok (_, p2) => .ok (Stmt.expr (Expr.call (Expr.variable_ "f")
            (List.replicate n (Expr.variable_ "a"))), p2) :
        Except ParseError (Stmt × PSt)))
      = _
    rw [consume_of_rem .semicolon "expected `;` after expression" hremQ rfl
      (by intro hx; exact TokenType.noConfusion hx)]
  unfold parseProgram
  rw [hF, parse_call_entry ((F + n + 11) + 11) n h1, hes]
  have hremE : rem ⟨callToks n, 2 + 2 * n + 1, 0⟩ = [eofTok] := by
    show (callToks n).drop (2 + 2 * n + 1) = _
    rw [show 2 + 2 * n + 1 = 2 * n + 3 from (by omega)]
    exact callToks_drop_eof n h1
  show ((match runSP (((F + n + 11) + 11) + 2)
        (.parseLoop [Stmt.expr (Expr.call (Expr.variable_ "f")
          (List.replicate n (Expr.variable_ "a")))])
        (⟨callToks n, 2 + 2 * n + 1, 0⟩ : PSt) with
      | .error e => .error e
      | .ok (.many stmts, _) => .ok stmts
      | .ok (.one _, _) => .error ⟨dummyToken, "model: kind mismatch"⟩ :
      Except ParseError (List Stmt)))
    = .ok [Stmt.expr (Expr.call (Expr.variable_ "f") (List.replicate n (Expr.variable_ "a")))]
  rw [show ((F + n + 11) + 11) + 2 = (((F + n + 11) + 11) + 1) + 1 from rfl]
  rw [parseLoop_eof (peekType_of_rem hremE)]

/-- A call statement with 256 or more arguments is rejected by the parser
with "can't have more than 255 arguments". -/
theorem call_args_rejected (n : Nat) (hn : 256 ≤ n) :
    parseProgram (callToks n)
      = .error ⟨identA, "can't have more than 255 arguments"⟩ := by
  have h1 : 1 ≤ n := by omega
  have hlen := callToks_length n h1
  obtain ⟨F, hF⟩ : ∃ F, 8 * (callToks n).length + 64 = ((F + n + 11) + 11) + 4 :=
    ⟨8 * (callToks n).length + 64 - n - 26, by omega⟩
  have hremP : rem ⟨callToks n, 0, 0⟩
      = identF :: lparenTok :: (reps (n - 1) ++ identA :: rparenTok :: [semiTok, eofTok]) := by
    show (callToks n).drop 0 = _
    rw [List.drop_zero, callToks_parts n h1]
  have hrem2 : rem ⟨callToks n, 2, 0⟩
      = reps (n - 1) ++ identA :: rparenTok :: [semiTok, eofTok] := callToks_drop2 n h1
  have hfc : runEP ((F + n + 11) + 1) (.finishCall (.variable_ "f")) ⟨callToks n, 2, 0⟩
      = .error ⟨identA, "can't have more than 255 arguments"⟩ :=
    finishCall_error n hn F ⟨callToks n, 2, 0⟩ (.variable_ "f") rparenTok
      [semiTok, eofTok] hrem2 rfl
  have hes : exprStatement ((F + n + 11) + 11) ⟨callToks n, 0, 0⟩
      = .error ⟨identA, "can't have more than 255 arguments"⟩ := by
    rw [show exprStatement ((F + n + 11) + 11) ⟨callToks n, 0, 0⟩
        = (match runEP ((F + n + 11) + 11) .expression ⟨callToks n, 0, 0⟩ with
           | .error e => .error e
           | .ok (expr, p1) =>
             (match consume .semicolon "expected `;` after expression" p1 with
              | .error e => .error e
              | .ok (_, p2) => .ok (.expr expr, p2))) from rfl]
    rw [expr_call_entry_err (F + n + 11) ⟨callToks n, 0, 0⟩ _
      ⟨identA, "can't have more than 255 arguments"⟩ hremP hfc]
  unfold parseProgram
  rw [hF, parse_call_entry ((F + n + 11) + 11) n h1, hes]

/-- C7.  The claim says the parser accepts up to and including 255
parameters per function declaration and 255 arguments per call, rejecting
only strictly more.  The argument half is exactly right: a call parses
with up to 255 arguments and fails with "can't have more than 255
arguments" from 256 on.  The parameter half is off by one in the code:
`Parser::function` checks `parameters.len() >= 255` *after* pushing each
parameter, so a declaration with exactly 255 parameters is already
rejected — with a message ("can't have more than 255 parameters") that
contradicts the check — and only up to 254 parameters parse. -/
theorem c7_param_limit_off_by_one_args_limit_exact :
    (∀ n, 255 ≤ n → parseProgram (funToks n)
        = .error ⟨identA, "can't have more than 255 parameters"⟩)
    ∧ (∀ n, 1 ≤ n → n ≤ 254 → parseProgram (funToks n)
        = .ok [.function_ "f" [] (List.replicate n "a")])
    ∧ (∀ n, 1 ≤ n → n ≤ 255 → parseProgram (callToks n)
        = .ok [.expr (.call (.variable_ "f") (List.replicate n (.variable_ "a")))])
    ∧ (∀ n, 256 ≤ n → parseProgram (callToks n)
        = .error ⟨identA, "can't have more than 255 arguments"⟩) :=
  ⟨funDecl_params_rejected, funDecl_params_accepted, call_args_accepted, call_args_rejected⟩

/-- The boundary instances of the previous theorem: 255 parameters are
rejected, 254 accepted; 255 arguments are accepted, 256 rejected. -/
theorem c7_param_limit_off_by_one_args_limit_exact_witness :
    parseProgram (funToks 255)
        = .error ⟨identA, "can't have more than 255 parameters"⟩
    ∧ parseProgram (funToks 254)
        = .ok [.function_ "f" [] (List.replicate 254 "a")]
    ∧ parseProgram (callToks 255)
        = .ok [.expr (.call (.variable_ "f") (List.replicate 255 (.variable_ "a")))]
    ∧ parseProgram (callToks 256)
        = .error ⟨identA, "can't have more than 255 arguments"⟩ :=
  ⟨c7_param_limit_off_by_one_args_limit_exact.1 255 (by decide),
   c7_param_limit_off_by_one_args_limit_exact.2.1 254 (by decide) (by decide),
   c7_param_limit_off_by_one_args_limit_exact.2.2.1 255 (by decide) (by decide),
   c7_param_limit_off_by_one_args_limit_exact.2.2.2 256 (by decide)⟩

/-! ## The scanner position invariant (for the amended token-position
claim): outside of multi-line lexemes, `add_token`'s `col - lexeme.len()`
recovers the position of the lexeme's first character. -/

theorem colOf_le (src : List Char) : ∀ i, colOf src i ≤ i + 1 := by
  intro i
  induction i with
  | zero => exact Nat.le_refl 1
  | succ k ih =>
    rw [colOf]
    split
    · omega
    · omega

theorem lineCol_shift (src : List Char) (a : Nat) :
    ∀ d, (∀ k, a ≤ k → k < a + d → src.getD k ' ' ≠ '\n') →
      lineOf src (a + d) = lineOf src a ∧ colOf src (a + d) = colOf src a + d := by
  intro d
  induction d with
  | zero => intro _; exact ⟨rfl, rfl⟩
  | succ m ih =>
    intro h
    have hm := ih (fun k hk1 hk2 => h k hk1 (by omega))
    have hne : src.getD (a + m) ' ' ≠ '\n' := h (a + m) (by omega) (by omega)
    refine ⟨?_, ?_⟩
    · show lineOf src ((a + m) + 1) = _
      rw [lineOf, if_neg hne, hm.1]
      omega
    · show colOf src ((a + m) + 1) = _
      rw [colOf, if_neg hne, hm.2]
      omega

theorem usizeSub_exact (a b : Nat) (h : a < 2 ^ 64) (hb : b ≤ a) :
    usizeSub a b = a - b := by
  unfold usizeSub
  have h64 : (2 : Nat) ^ 64 = 18446744073709551616 := by norm_num
  rw [h64] at h ⊢
  omega

theorem slice_length (src : List Char) (a b : Nat) (h2 : b ≤ src.length) :
    ((src.drop a).take (b - a)).length = b - a := by
  rw [List.length_take, List.length_drop]
  omega

theorem getD_some_of_lt (src : List Char) (i : Nat) (h : i < src.length) :
    src[i]? = some (src.getD i ' ') := by
  rw [List.getElem?_eq_getElem h, List.getD_eq_getElem?_getD, List.getElem?_eq_getElem h]
  rfl

theorem getD_mem_slice (src : List Char) (a b k : Nat)
    (h1 : a ≤ k) (h2 : k < b) (h3 : b ≤ src.length) :
    src.getD k ' ' ∈ (src.drop a).take (b - a) := by
  have hx : ((src.drop a).take (b - a))[k - a]? = some (src.getD k ' ') := by
    rw [List.getElem?_take, if_pos (by omega), List.getElem?_drop,
      show a + (k - a) = k from (by omega)]
    exact getD_some_of_lt src k (by omega)
  exact List.getElem?_mem hx

theorem slice_head (src : List Char) (a b : Nat) (h1 : a < b) (h2 : a < src.length) :
    ((src.drop a).take (b - a)).head? = some (src.getD a ' ') := by
  cases hd : src.drop a with
  | nil =>
    have hlen := congrArg List.length hd
    rw [List.length_drop] at hlen
    simp at hlen
    omega
  | cons c rest =>
    have hc : src.getD a ' ' = c := by
      rw [getD_eq_headD_drop, hd]
      rfl
    obtain ⟨m, hm⟩ : ∃ m, b - a = m + 1 := ⟨b - a - 1, by omega⟩
    rw [hm, hc]
    rfl

theorem no_newline_slice (src : List Char) (a b : Nat) (hb : b ≤ src.length)
    (h : ('\n' ∈ (src.drop a).take (b - a)) → False) :
    ∀ k, a ≤ k → k < b → src.getD k ' ' ≠ '\n' := by
  intro k h1 h2 hx
  exact h (hx ▸ getD_mem_slice src a b k h1 h2 hb)

/-- `Scanner::add_token` preserves the coupling and the new token is
good: on a single-line lexeme, `col - lexeme.len()` is exactly the column
of the lexeme's first character, at the unchanged line. -/
theorem addToken_good (tt : TokenType) (s : ScanSt)
    (hc : coupled s) (hlt : s.start < s.current)
    (hbig : s.source.length + 1 < 2 ^ 64) :
    coupled (addToken tt s) ∧ (addToken tt s).source = s.source
    ∧ (∀ t ∈ (addToken tt s).tokens, t ∈ s.tokens ∨ goodTok s.source t) := by
  obtain ⟨hle, hstream, hline, hcol⟩ := hc
  refine ⟨⟨hle, hstream, hline, hcol⟩, rfl, ?_⟩
  intro t ht
  rw [show (addToken tt s).tokens
      = s.tokens ++ [⟨tt, String.mk (sliceLexeme s), s.line,
          usizeSub s.col (sliceLexeme s).length⟩] from rfl] at ht
  rcases List.mem_append.mp ht with h | h
  · exact Or.inl h
  · right
    have heq : t = ⟨tt, String.mk (sliceLexeme s), s.line,
        usizeSub s.col (sliceLexeme s).length⟩ := by simpa using h
    subst heq
    intro hnl
    have hnl2 : ('\n' ∈ sliceLexeme s) → False := by
      intro hx
      rw [show (String.mk (sliceLexeme s)).data = sliceLexeme s from rfl] at hnl
      have hmem : ('\n' ∈ sliceLexeme s) → False := by simpa using hnl
      exact hmem hx
    have hkk := no_newline_slice s.source s.start s.current hle
      (fun hx => hnl2 hx)
    have hshift := lineCol_shift s.source s.start (s.current - s.start)
      (fun k hk1 hk2 => hkk k hk1 (by omega))
    rw [show s.start + (s.current - s.start) = s.current from (by omega)] at hshift
    have hlex : (sliceLexeme s).length = s.current - s.start :=
      slice_length s.source s.start s.current hle
    have hcolb : colOf s.source s.current < 2 ^ 64 := by
      have := colOf_le s.source s.current
      omega
    refine ⟨s.start, by omega, ?_, ?_, ?_⟩
    · show lineOf s.source s.start = s.line
      rw [hline]
      exact hshift.1.symm
    · show colOf s.source s.start = usizeSub s.col (sliceLexeme s).length
      rw [hcol, hlex, usizeSub_exact _ _ hcolb (by rw [hshift.2]; omega), hshift.2]
      omega
    · show (String.mk (sliceLexeme s)).data.head? = some (s.source.getD s.start ' ')
      rw [show (String.mk (sliceLexeme s)).data = sliceLexeme s from rfl]
      exact slice_head s.source s.start s.current hlt (by omega)

/-- `Scanner::advance` on a non-empty stream: the coupling is preserved,
`current` moves one forward and the consumed character is the source
character at the old `current`. -/
theorem sadvance_step (s : ScanSt) (hc : coupled s) (hne : s.stream ≠ []) :
    coupled (sadvance s).2 ∧ (sadvance s).2.source = s.source
    ∧ (sadvance s).2.tokens = s.tokens ∧ (sadvance s).2.start = s.start
    ∧ (sadvance s).2.current = s.current + 1
    ∧ (sadvance s).1 = some (s.source.getD s.current ' ') := by
  obtain ⟨hle, hstream, hline, hcol⟩ := hc
  have hlt : s.current < s.source.length := by
    by_contra hx
    exact hne (hstream.trans (List.drop_eq_nil_of_le (by omega)))
  cases hd : s.source.drop s.current with
  | nil =>
    have hlen := congrArg List.length hd
    rw [List.length_drop] at hlen
    simp at hlen
    omega
  | cons c rest =>
    have hcc : s.source.getD s.current ' ' = c := by
      rw [getD_eq_headD_drop, hd]
      rfl
    have hstream2 : s.stream = c :: rest := hstream.trans hd
    have hrest : s.source.drop (s.current + 1) = rest := drop_succ_of_cons hd
    by_cases hcn : c = '\n'
    · have hval : sadvance s = (some c,
          { s with stream := rest
                   current := s.current + 1
                   line := s.line + 1
                   col := 1 }) := by
        simp [sadvance, hstream2, hcn]
      rw [hval]
      refine ⟨⟨(by omega : s.current + 1 ≤ s.source.length), hrest.symm, ?_, ?_⟩,
        rfl, rfl, rfl, rfl, by rw [hcc]⟩
      · show s.line + 1 = lineOf s.source (s.current + 1)
        rw [lineOf, hcc, hcn, if_pos rfl, hline]
      · show 1 = colOf s.source (s.current + 1)
        rw [colOf, hcc, hcn, if_pos rfl]
    · have hval : sadvance s = (some c,
          { s with stream := rest
                   current := s.current + 1
                   col := s.col + 1 }) := by
        simp [sadvance, hstream2, hcn]
      rw [hval]
      refine ⟨⟨(by omega : s.current + 1 ≤ s.source.length), hrest.symm, ?_, ?_⟩,
        rfl, rfl, rfl, rfl, by rw [hcc]⟩
      · show s.line = lineOf s.source (s.current + 1)
        rw [lineOf, hcc, if_neg hcn, hline]
        omega
      · show s.col + 1 = colOf s.source (s.current + 1)
        rw [colOf, hcc, if_neg hcn, hcol]

theorem speek_some_ne_nil {s : ScanSt} {c : Char} (h : speek s = some c) :
    s.stream ≠ [] := by
  intro hx
  unfold speek at h
  rw [hx] at h
  cases h

theorem nextMatch_step (e : Char) (s : ScanSt) (hc : coupled s) :
    coupled (nextMatch e s).2 ∧ (nextMatch e s).2.source = s.source
    ∧ (nextMatch e s).2.tokens = s.tokens ∧ (nextMatch e s).2.start = s.start
    ∧ s.current ≤ (nextMatch e s).2.current := by
  cases hp : speek s with
  | none =>
    have hval : nextMatch e s = (false, s) := by simp [nextMatch, hp]
    rw [hval]
    exact ⟨hc, rfl, rfl, rfl, Nat.le_refl _⟩
  | some c =>
    by_cases hce : c = e
    · have hval : nextMatch e s = (true, (sadvance s).2) := by
        simp [nextMatch, hp, hce]
      rw [hval]
      obtain ⟨h1, h2, h3, h4, h5, _⟩ := sadvance_step s hc (speek_some_ne_nil hp)
      exact ⟨h1, h2, h3, h4, (by omega : s.current ≤ (sadvance s).2.current)⟩
    · have hval : nextMatch e s = (false, s) := by simp [nextMatch, hp, hce]
      rw [hval]
      exact ⟨hc, rfl, rfl, rfl, Nat.le_refl _⟩

theorem commentLoop_step : ∀ (fuel : Nat) (s : ScanSt), coupled s →
    coupled (commentLoop fuel s) ∧ (commentLoop fuel s).source = s.source
    ∧ (commentLoop fuel s).tokens = s.tokens ∧ (commentLoop fuel s).start = s.start
    ∧ s.current ≤ (commentLoop fuel s).current := by
  intro fuel
  induction fuel with
  | zero => intro s hc; exact ⟨hc, rfl, rfl, rfl, Nat.le_refl _⟩
  | succ m ih =>
    intro s hc
    cases hp : speek s with
    | none =>
      have hval : commentLoop (m + 1) s = s := by simp [commentLoop, hp]
      rw [hval]
      exact ⟨hc, rfl, rfl, rfl, Nat.le_refl _⟩
    | some c =>
      by_cases hnl : c = '\n'
      · have hval : commentLoop (m + 1) s = s := by simp [commentLoop, hp, hnl]
        rw [hval]
        exact ⟨hc, rfl, rfl, rfl, Nat.le_refl _⟩
      · have hval : commentLoop (m + 1) s = commentLoop m (sadvance s).2 := by
          simp [commentLoop, hp, hnl]
        rw [hval]
        obtain ⟨h1, h2, h3, h4, h5, _⟩ := sadvance_step s hc (speek_some_ne_nil hp)
        obtain ⟨g1, g2, g3, g4, g5⟩ := ih (sadvance s).2 h1
        exact ⟨g1, g2.trans h2, g3.trans h3, g4.trans h4, by omega⟩

theorem digitsLoop_step : ∀ (fuel : Nat) (s : ScanSt), coupled s →
    coupled (digitsLoop fuel s) ∧ (digitsLoop fuel s).source = s.source
    ∧ (digitsLoop fuel s).tokens = s.tokens ∧ (digitsLoop fuel s).start = s.start
    ∧ s.current ≤ (digitsLoop fuel s).current := by
  intro fuel
  induction fuel with
  | zero => intro s hc; exact ⟨hc, rfl, rfl, rfl, Nat.le_refl _⟩
  | succ m ih =>
    intro s hc
    cases hp : speek s with
    | none =>
      have hval : digitsLoop (m + 1) s = s := by simp [digitsLoop, hp]
      rw [hval]
      exact ⟨hc, rfl, rfl, rfl, Nat.le_refl _⟩
    | some c =>
      by_cases hd : c.isDigit
      · have hval : digitsLoop (m + 1) s = digitsLoop m (sadvance s).2 := by
          simp [digitsLoop, hp, hd]
        rw [hval]
        obtain ⟨h1, h2, h3, h4, h5, _⟩ := sadvance_step s hc (speek_some_ne_nil hp)
        obtain ⟨g1, g2, g3, g4, g5⟩ := ih (sadvance s).2 h1
        exact ⟨g1, g2.trans h2, g3.trans h3, g4.trans h4, by omega⟩
      · have hval : digitsLoop (m + 1) s = s := by simp [digitsLoop, hp, hd]
        rw [hval]
        exact ⟨hc, rfl, rfl, rfl, Nat.le_refl _⟩

theorem identLoop_step : ∀ (fuel : Nat) (s : ScanSt), coupled s →
    coupled (identLoop fuel s) ∧ (identLoop fuel s).source = s.source
    ∧ (identLoop fuel s).tokens = s.tokens ∧ (identLoop fuel s).start = s.start
    ∧ s.current ≤ (identLoop fuel s).current := by
  intro fuel
  induction fuel with
  | zero => intro s hc; exact ⟨hc, rfl, rfl, rfl, Nat.le_refl _⟩
  | succ m ih =>
    intro s hc
    cases hp : speek s with
    | none =>
      have hval : identLoop (m + 1) s = s := by simp [identLoop, hp]
      rw [hval]
      exact ⟨hc, rfl, rfl, rfl, Nat.le_refl _⟩
    | some c =>
      by_cases hd : c.isAlpha
      · have hval : identLoop (m + 1) s = identLoop m (sadvance s).2 := by
          simp [identLoop, hp, hd]
        rw [hval]
        obtain ⟨h1, h2, h3, h4, h5, _⟩ := sadvance_step s hc (speek_some_ne_nil hp)
        obtain ⟨g1, g2, g3, g4, g5⟩ := ih (sadvance s).2 h1
        exact ⟨g1, g2.trans h2, g3.trans h3, g4.trans h4, by omega⟩
      · have hval : identLoop (m + 1) s = s := by simp [identLoop, hp, hd]
        rw [hval]
        exact ⟨hc, rfl, rfl, rfl, Nat.le_refl _⟩

theorem stringLoop_step : ∀ (fuel : Nat) (s : ScanSt) (acc : List Char), coupled s →
    coupled (stringLoop fuel s acc).1
    ∧ (stringLoop fuel s acc).1.source = s.source
    ∧ (stringLoop fuel s acc).1.tokens = s.tokens
    ∧ (stringLoop fuel s acc).1.start = s.start
    ∧ s.current ≤ (stringLoop fuel s acc).1.current := by
  intro fuel
  induction fuel with
  | zero => intro s acc hc; exact ⟨hc, rfl, rfl, rfl, Nat.le_refl _⟩
  | succ m ih =>
    intro s acc hc
    cases hp : speek s with
    | none =>
      have hval : stringLoop (m + 1) s acc = (s, acc) := by simp [stringLoop, hp]
      rw [hval]
      exact ⟨hc, rfl, rfl, rfl, Nat.le_refl _⟩
    | some c =>
      by_cases hq : c = '"'
      · have hval : stringLoop (m + 1) s acc = (s, acc) := by simp [stringLoop, hp, hq]
        rw [hval]
        exact ⟨hc, rfl, rfl, rfl, Nat.le_refl _⟩
      · obtain ⟨h1, h2, h3, h4, h5, h6⟩ := sadvance_step s hc (speek_some_ne_nil hp)
        set s2 := (sadvance s).2 with hs2
        have hpair : sadvance s = (some (s.source.getD s.current ' '), s2) := by
          rw [← h6]
        have hval : stringLoop (m + 1) s acc
            = stringLoop m s2 (acc ++ [s.source.getD s.current ' ']) := by
          simp [stringLoop, hp, hq, hpair]
        rw [hval]
        obtain ⟨g1, g2, g3, g4, g5⟩ := ih s2 _ h1
        exact ⟨g1, g2.trans h2, g3.trans h3, g4.trans h4, by omega⟩

theorem stringTok_step (s : ScanSt) (hc : coupled s) :
    ∀ tt s', stringTok s = .ok (tt, s') →
      coupled s' ∧ s'.source = s.source ∧ s'.tokens = s.tokens
      ∧ s'.start = s.start ∧ s.current ≤ s'.current := by
  intro tt s' hok
  unfold stringTok at hok
  obtain ⟨h1, h2, h3, h4, h5⟩ := stringLoop_step (s.stream.length + 1) s [] hc
  rcases hL : stringLoop (s.stream.length + 1) s [] with ⟨s2, contents⟩
  rw [hL] at hok h1 h2 h3 h4 h5
  simp only at h1 h2 h3 h4 h5 hok
  cases hp : speek s2 with
  | none =>
    rw [hp] at hok
    simp at hok
  | some c =>
    rw [hp] at hok
    simp at hok
    obtain ⟨g1, g2, g3, g4, g5, _⟩ := sadvance_step s2 h1 (speek_some_ne_nil hp)
    rw [← hok.2]
    exact ⟨g1, g2.trans h2, g3.trans h3, g4.trans h4, by omega⟩

theorem identifierTok_step (s : ScanSt) (hc : coupled s) :
    coupled (identifierTok s).2 ∧ (identifierTok s).2.source = s.source
    ∧ (identifierTok s).2.tokens = s.tokens ∧ (identifierTok s).2.start = s.start
    ∧ s.current ≤ (identifierTok s).2.current := by
  obtain ⟨h1, h2, h3, h4, h5⟩ := identLoop_step (s.stream.length + 1) s hc
  exact ⟨h1, h2, h3, h4, h5⟩

theorem numberTok_step (s : ScanSt) (hc : coupled s) :
    ∀ tt s', numberTok s = .ok (tt, s') →
      coupled s' ∧ s'.source = s.source ∧ s'.tokens = s.tokens
      ∧ s'.start = s.start ∧ s.current ≤ s'.current := by
  intro tt s' hok
  unfold numberTok at hok
  obtain ⟨h1, h2, h3, h4, h5⟩ := digitsLoop_step (s.stream.length + 1) s hc
  set s2 := digitsLoop (s.stream.length + 1) s with hs2
  simp only at hok
  cases hp : speek s2 with
  | none =>
    rw [hp] at hok
    simp at hok
    rw [← hok.2]
    exact ⟨h1, h2, h3, h4, h5⟩
  | some c =>
    rw [hp] at hok
    by_cases hdot : c = '.'
    · subst hdot
      simp at hok
      obtain ⟨g1, g2, g3, g4, g5, _⟩ := sadvance_step s2 h1 (speek_some_ne_nil hp)
      set s3 := (sadvance s2).2 with hs3
      cases he : s3.stream with
      | nil =>
        have hadv3 : sadvance s3 = (none,
            { s3 with current := s3.current + 1
                      col := s3.col + 1 }) := by
          simp [sadvance, he]
        rw [hadv3] at hok
        simp at hok
      | cons d rest =>
        obtain ⟨k1, k2, k3, k4, k5, k6⟩ := sadvance_step s3 g1 (by rw [he]; simp)
        set s4 := (sadvance s3).2 with hs4
        have hpair : sadvance s3 = (some (s3.source.getD s3.current ' '), s4) := by
          rw [← k6]
        rw [hpair] at hok
        simp at hok
        by_cases hdig : (s3.source.getD s3.current ' ').isDigit
        · rw [if_neg (by simpa using hdig)] at hok
          obtain ⟨m1, m2, m3, m4, m5⟩ := digitsLoop_step (s4.stream.length + 1) s4 k1
          simp at hok
          rw [← hok.2]
          exact ⟨m1, m2.trans (k2.trans (g2.trans h2)),
            m3.trans (k3.trans (g3.trans h3)),
            m4.trans (k4.trans (g4.trans h4)), by omega⟩
        · rw [if_pos (by simpa using hdig)] at hok
          simp at hok
    · simp [hdot] at hok
      rw [← hok.2]
      exact ⟨h1, h2, h3, h4, h5⟩

/-- `Scanner::scan_token` from a coupled state (with `start` just reset
to `current`): the result is coupled and every token it appends is good. -/
theorem scanToken_good (s : ScanSt) (hc : coupled s) (hne : s.stream ≠ [])
    (hstart : s.start = s.current) (hbig : s.source.length + 1 < 2 ^ 64) :
    ∀ s', scanToken s = .ok s' →
      coupled s' ∧ s'.source = s.source
      ∧ ∀ t ∈ s'.tokens, t ∈ s.tokens ∨ goodTok s.source t := by
  intro s' hok
  obtain ⟨h1, h2, h3, h4, h5, h6⟩ := sadvance_step s hc hne
  set s1 := (sadvance s).2 with hs1
  have hpair : sadvance s = (some (s.source.getD s.current ' '), s1) := by
    rw [← h6]
  have hfin : ∀ (tt : TokenType) (sk : ScanSt), coupled sk → sk.source = s.source →
      sk.tokens = s.tokens → sk.start = s.start → s.current < sk.current →
      coupled (addToken tt sk) ∧ (addToken tt sk).source = s.source
      ∧ ∀ t ∈ (addToken tt sk).tokens, t ∈ s.tokens ∨ goodTok s.source t := by
    intro tt sk k1 k2 k3 k4 k5
    obtain ⟨a1, a2, a3⟩ := addToken_good tt sk k1 (by omega) (by rw [k2]; exact hbig)
    refine ⟨a1, a2.trans k2, fun t ht => ?_⟩
    rcases a3 t ht with h | h
    · exact Or.inl (k3 ▸ h)
    · exact Or.inr (k2 ▸ h)
  unfold scanToken at hok
  rw [hpair] at hok
  simp only at hok
  split at hok
  case _ => -- '('
    injection hok with h
    subst h
    exact hfin _ s1 h1 h2 h3 h4 (by omega)
  case _ => -- ')'
    injection hok with h
    subst h
    exact hfin _ s1 h1 h2 h3 h4 (by omega)
  case _ =>
    injection hok with h
    subst h
    exact hfin _ s1 h1 h2 h3 h4 (by omega)
  case _ =>
    injection hok with h
    subst h
    exact hfin _ s1 h1 h2 h3 h4 (by omega)
  case _ =>
    injection hok with h
    subst h
    exact hfin _ s1 h1 h2 h3 h4 (by omega)
  case _ =>
    injection hok with h
    subst h
    exact hfin _ s1 h1 h2 h3 h4 (by omega)
  case _ =>
    injection hok with h
    subst h
    exact hfin _ s1 h1 h2 h3 h4 (by omega)
  case _ =>
    injection hok with h
    subst h
    exact hfin _ s1 h1 h2 h3 h4 (by omega)
  case _ =>
    injection hok with h
    subst h
    exact hfin _ s1 h1 h2 h3 h4 (by omega)
  case _ =>
    injection hok with h
    subst h
    exact hfin _ s1 h1 h2 h3 h4 (by omega)
  case _ => -- '!'
    obtain ⟨n1, n2, n3, n4, n5⟩ := nextMatch_step '=' s1 h1
    rcases hN : nextMatch '=' s1 with ⟨m, s2⟩
    rw [hN] at n1 n2 n3 n4 n5 hok
    simp only at n1 n2 n3 n4 n5 hok
    cases m <;>
      (injection hok with h
       subst h
       exact hfin _ s2 n1 (n2.trans h2) (n3.trans h3) (n4.trans h4) (by omega))
  case _ => -- '='
    obtain ⟨n1, n2, n3, n4, n5⟩ := nextMatch_step '=' s1 h1
    rcases hN : nextMatch '=' s1 with ⟨m, s2⟩
    rw [hN] at n1 n2 n3 n4 n5 hok
    simp only at n1 n2 n3 n4 n5 hok
    cases m <;>
      (injection hok with h
       subst h
       exact hfin _ s2 n1 (n2.trans h2) (n3.trans h3) (n4.trans h4) (by omega))
  case _ => -- '>'
    obtain ⟨n1, n2, n3, n4, n5⟩ := nextMatch_step '=' s1 h1
    rcases hN : nextMatch '=' s1 with ⟨m, s2⟩
    rw [hN] at n1 n2 n3 n4 n5 hok
    simp only at n1 n2 n3 n4 n5 hok
    cases m <;>
      (injection hok with h
       subst h
       exact hfin _ s2 n1 (n2.trans h2) (n3.trans h3) (n4.trans h4) (by omega))
  case _ => -- '<'
    obtain ⟨n1, n2, n3, n4, n5⟩ := nextMatch_step '=' s1 h1
    rcases hN : nextMatch '=' s1 with ⟨m, s2⟩
    rw [hN] at n1 n2 n3 n4 n5 hok
    simp only at n1 n2 n3 n4 n5 hok
    cases m <;>
      (injection hok with h
       subst h
       exact hfin _ s2 n1 (n2.trans h2) (n3.trans h3) (n4.trans h4) (by omega))
  case _ => -- '/'
    obtain ⟨n1, n2, n3, n4, n5⟩ := nextMatch_step '/' s1 h1
    rcases hN : nextMatch '/' s1 with ⟨m, s2⟩
    rw [hN] at n1 n2 n3 n4 n5 hok
    simp only at n1 n2 n3 n4 n5 hok
    cases m with
    | true =>
      rw [if_pos rfl] at hok
      injection hok with h
      subst h
      obtain ⟨c1, c2, c3, c4, c5⟩ := commentLoop_step (s2.stream.length + 1) s2 n1
      refine ⟨c1, c2.trans (n2.trans h2), fun t ht => Or.inl ?_⟩
      rw [c3, n3, h3] at ht
      exact ht
    | false =>
      rw [if_neg (by simp)] at hok
      injection hok with h
      subst h
      exact hfin _ s2 n1 (n2.trans h2) (n3.trans h3) (n4.trans h4) (by omega)
  case _ => -- ' '
    injection hok with h
    subst h
    exact ⟨h1, h2, fun t ht => Or.inl (by rw [h3] at ht; exact ht)⟩
  case _ =>
    injection hok with h
    subst h
    exact ⟨h1, h2, fun t ht => Or.inl (by rw [h3] at ht; exact ht)⟩
  case _ =>
    injection hok with h
    subst h
    exact ⟨h1, h2, fun t ht => Or.inl (by rw [h3] at ht; exact ht)⟩
  case _ =>
    injection hok with h
    subst h
    exact ⟨h1, h2, fun t ht => Or.inl (by rw [h3] at ht; exact ht)⟩
  case _ => -- '"'
    rcases hS : stringTok s1 with e | ⟨tE, s2⟩
    · rw [hS] at hok
      exact Except.noConfusion hok
    · rw [hS] at hok
      simp only at hok
      injection hok with h
      subst h
      obtain ⟨m1, m2, m3, m4, m5⟩ := stringTok_step s1 h1 tE s2 hS
      exact hfin _ s2 m1 (m2.trans h2) (m3.trans h3) (m4.trans h4) (by omega)
  case _ => -- default: digit / alpha / error
    split at hok
    · rcases hS : numberTok s1 with e | ⟨tE, s2⟩
      · rw [hS] at hok
        exact Except.noConfusion hok
      · rw [hS] at hok
        simp only at hok
        injection hok with h
        subst h
        obtain ⟨m1, m2, m3, m4, m5⟩ := numberTok_step s1 h1 tE s2 hS
        exact hfin _ s2 m1 (m2.trans h2) (m3.trans h3) (m4.trans h4) (by omega)
    · split at hok
      · obtain ⟨m1, m2, m3, m4, m5⟩ := identifierTok_step s1 h1
        rcases hI : identifierTok s1 with ⟨tE, s2⟩
        rw [hI] at m1 m2 m3 m4 m5 hok
        simp only at m1 m2 m3 m4 m5 hok
        injection hok with h
        subst h
        exact hfin _ s2 m1 (m2.trans h2) (m3.trans h3) (m4.trans h4) (by omega)
      · exact Except.noConfusion hok

/-- The `scan_tokens` loop keeps every produced token good. -/
theorem scanLoop_good : ∀ (fuel : Nat) (s : ScanSt), coupled s →
    s.source.length + 1 < 2 ^ 64 →
    (∀ t ∈ s.tokens, goodTok s.source t) →
    ∀ s', scanLoop fuel s = .ok s' →
      s'.source = s.source ∧ ∀ t ∈ s'.tokens, goodTok s.source t := by
  intro fuel
  induction fuel with
  | zero =>
    intro s hc hbig hg s' hok
    injection hok with h
    subst h
    exact ⟨rfl, hg⟩
  | succ m ih =>
    intro s hc hbig hg s' hok
    cases hp : speek s with
    | none =>
      have hval : scanLoop (m + 1) s = .ok s := by simp [scanLoop, hp]
      rw [hval] at hok
      injection hok with h
      subst h
      exact ⟨rfl, hg⟩
    | some c =>
      have hval : scanLoop (m + 1) s
          = (match scanToken { s with start := s.current } with
             | .error e => .error e
             | .ok s2 => scanLoop m s2) := by
        simp [scanLoop, hp]
      rw [hval] at hok
      rcases hT : scanToken { s with start := s.current } with e | s2
      · rw [hT] at hok
        exact Except.noConfusion hok
      · rw [hT] at hok
        have hok2 : scanLoop m s2 = .ok s' := hok
        have hcs : coupled { s with start := s.current } := hc
        have hnes : ({ s with start := s.current } : ScanSt).stream ≠ [] :=
          speek_some_ne_nil (c := c) hp
        obtain ⟨g1, g2, g3⟩ := scanToken_good { s with start := s.current }
          hcs hnes rfl hbig s2 hT
        have hg2 : ∀ t ∈ s2.tokens, goodTok s2.source t := by
          intro t ht
          rw [g2]
          rcases g3 t ht with h | h
          · exact hg t h
          · exact h
        obtain ⟨r1, r2⟩ := ih s2 g1 (by rw [g2]; exact hbig) hg2 s' hok2
        refine ⟨r1.trans g2, fun t ht => ?_⟩
        have := r2 t ht
        rw [g2] at this
        exact this

/-- C9, amended.  If scanning succeeds, then every non-`Eof` token whose
lexeme contains no newline has a faithful position: the reported
`(line, col)` is exactly the line and column of the first character of
the lexeme in the source (`add_token`'s `col - lexeme.len()` subtraction
is exact there).  The multi-line string tokens excluded by the amendment
are genuinely wrong, as the separate counterexample shows; the length
bound keeps the model's `usize` column arithmetic exact. -/
theorem c9_single_line_lexeme_position_exact (source : String) (ts : List Token)
    (hbig : source.data.length + 1 < 2 ^ 64)
    (hscan : scanTokens source = .ok ts) :
    ∀ t ∈ ts, t.type ≠ .eof → t.lexeme.data.contains '\n' = false →
      tokenPosGood source.data t := by
  intro t ht htype hnl
  unfold scanTokens at hscan
  simp only at hscan
  rcases hL : scanLoop (source.data.length + 1)
      ⟨source.data, source.data, [], 0, 0, 1, 1⟩ with e | sf
  · rw [hL] at hscan
    exact Except.noConfusion hscan
  · rw [hL] at hscan
    simp only at hscan
    injection hscan with h
    subst h
    obtain ⟨r1, r2⟩ := scanLoop_good (source.data.length + 1)
      ⟨source.data, source.data, [], 0, 0, 1, 1⟩
      ⟨Nat.zero_le _, rfl, rfl, rfl⟩ hbig (by intro t ht; cases ht) sf hL
    rw [show (addEofToken sf).tokens
        = sf.tokens ++ [⟨.eof, "", sf.line, sf.col⟩] from rfl] at ht
    rcases List.mem_append.mp ht with h | h
    · exact (r2 t h) hnl
    · have heq : t = ⟨.eof, "", sf.line, sf.col⟩ := by simpa using h
      rw [heq] at htype
      exact absurd rfl htype

/-- A concrete instance of the amended position property: in the
two-line source `ab\ncd`, the token `cd` is reported at line 2,
column 1, which indeed designates its first character. -/
theorem c9_single_line_lexeme_position_exact_witness :
    scanTokens "ab\ncd"
      = .ok [⟨.identifier "ab", "ab", 1, 1⟩, ⟨.identifier "cd", "cd", 2, 1⟩,
          ⟨.eof, "", 2, 3⟩]
    ∧ tokenPosGood "ab\ncd".data ⟨.identifier "cd", "cd", 2, 1⟩ := by
  have hscan : scanTokens "ab\ncd"
      = .ok [⟨.identifier "ab", "ab", 1, 1⟩, ⟨.identifier "cd", "cd", 2, 1⟩,
          ⟨.eof, "", 2, 3⟩] := by rfl
  refine ⟨hscan, ?_⟩
  exact c9_single_line_lexeme_position_exact "ab\ncd" _ (by decide) hscan
    ⟨.identifier "cd", "cd", 2, 1⟩ (by decide) (by decide) (by decide)

end Rlox
